import Mathlib

/-!
Verification development for the dirschema repository: a directory-schema
compiler ("expand"), a schema-guided filesystem walker ("fswalk"), a
validation result normalizer ("validate"), and a hydration planner/applier
("hydrate").  Go maps are embedded as association lists, Go `any` trees as
the `JValue` inductive, filesystem state as a finite map from component
paths to entries, and recursion that Go bounds by the finiteness of the
filesystem or of the input tree is embedded with an explicit fuel
parameter (theorems quantify over all sufficiently large fuel values).
-/

namespace DirSchema

/-! ## Byte-order string comparison

Go compares strings byte-wise (`<` on `string`).  UTF-8 byte order agrees
with code-point order, so the comparison is embedded as lexicographic
order on the code points of the string.  Lean's own `String.lt` is not
kernel-reducible, hence this explicit executable version. -/

def charsLt : List Char → List Char → Bool
  | [], [] => false
  | [], _ :: _ => true
  | _ :: _, [] => false
  | a :: as, b :: bs =>
    if a.toNat < b.toNat then true
    else if b.toNat < a.toNat then false
    else charsLt as bs

def charsLe : List Char → List Char → Bool
  | [], _ => true
  | _ :: _, [] => false
  | a :: as, b :: bs =>
    if a.toNat < b.toNat then true
    else if b.toNat < a.toNat then false
    else charsLe as bs

def strLt (a b : String) : Bool := charsLt a.toList b.toList

def strLe (a b : String) : Bool := charsLe a.toList b.toList

theorem charsLt_irrefl (a : List Char) : charsLt a a = false := by
  induction a with
  | nil => rfl
  | cons c cs ih => simp [charsLt, ih]

theorem charsLe_refl (a : List Char) : charsLe a a = true := by
  induction a with
  | nil => rfl
  | cons c cs ih => simp [charsLe, ih]

theorem charsLt_eq_not_charsLe (a b : List Char) : charsLt a b = !(charsLe b a) := by
  induction a generalizing b with
  | nil => cases b <;> simp [charsLt, charsLe]
  | cons c cs ih =>
    cases b with
    | nil => simp [charsLt, charsLe]
    | cons d ds =>
      by_cases h1 : c.toNat < d.toNat
      · have h2 : ¬ d.toNat < c.toNat := by omega
        simp [charsLt, charsLe, h1, h2]
      · by_cases h2 : d.toNat < c.toNat
        · simp [charsLt, charsLe, h1, h2]
        · simp [charsLt, charsLe, h1, h2, ih]

theorem charsLe_total (a b : List Char) : charsLe a b || charsLe b a := by
  induction a generalizing b with
  | nil => simp [charsLe]
  | cons c cs ih =>
    cases b with
    | nil => simp [charsLe]
    | cons d ds =>
      by_cases h1 : c.toNat < d.toNat
      · have h2 : ¬ d.toNat < c.toNat := by omega
        simp [charsLe, h1, h2]
      · by_cases h2 : d.toNat < c.toNat
        · simp [charsLe, h1, h2]
        · simp [charsLe, h1, h2, ih]

theorem charsLe_trans {a b c : List Char} (hab : charsLe a b = true)
    (hbc : charsLe b c = true) : charsLe a c = true := by
  induction a generalizing b c with
  | nil => simp [charsLe]
  | cons x xs ih =>
    cases b with
    | nil => simp [charsLe] at hab
    | cons y ys =>
      cases c with
      | nil => simp [charsLe] at hbc
      | cons z zs =>
        simp only [charsLe] at hab hbc ⊢
        by_cases hxy : x.toNat < y.toNat
        · by_cases hyz : y.toNat < z.toNat
          · have : x.toNat < z.toNat := by omega
            simp [this]
          · by_cases hzy : z.toNat < y.toNat
            · simp [hyz, hzy] at hbc
            · have hyz' : y.toNat = z.toNat := by omega
              have : x.toNat < z.toNat := by omega
              simp [this]
        · by_cases hyx : y.toNat < x.toNat
          · simp [hxy, hyx] at hab
          · have hxy' : x.toNat = y.toNat := by omega
            by_cases hyz : y.toNat < z.toNat
            · have : x.toNat < z.toNat := by omega
              simp [this]
            · by_cases hzy : z.toNat < y.toNat
              · simp [hyz, hzy] at hbc
              · have h1 : ¬ x.toNat < z.toNat := by omega
                have h2 : ¬ z.toNat < x.toNat := by omega
                simp [hxy, hyx, hyz, hzy] at hab hbc
                simp [h1, h2, ih hab hbc]

theorem charsLe_antisymm {a b : List Char} (hab : charsLe a b = true)
    (hba : charsLe b a = true) : a = b := by
  induction a generalizing b with
  | nil =>
    cases b with
    | nil => rfl
    | cons d ds => simp [charsLe] at hba
  | cons c cs ih =>
    cases b with
    | nil => simp [charsLe] at hab
    | cons d ds =>
      simp only [charsLe] at hab hba
      by_cases h1 : c.toNat < d.toNat
      · have h2 : ¬ d.toNat < c.toNat := by omega
        simp [h1, h2] at hba
      · by_cases h2 : d.toNat < c.toNat
        · simp [h1, h2] at hab
        · have hcd : c = d := Char.ext (UInt32.toNat.inj (by
            simp only [Char.toNat] at h1 h2
            omega))
          simp [h1, h2] at hab hba
          simp [hcd, ih hab hba]

theorem strLe_total (a b : String) : strLe a b || strLe b a := charsLe_total _ _

theorem strLe_trans {a b c : String} (hab : strLe a b = true)
    (hbc : strLe b c = true) : strLe a c = true := charsLe_trans hab hbc

theorem strLe_antisymm {a b : String} (hab : strLe a b = true)
    (hba : strLe b a = true) : a = b := by
  have h := charsLe_antisymm hab hba
  cases a; cases b
  simpa [String.toList] using congrArg String.mk h

theorem strLt_eq_not_strLe (a b : String) : strLt a b = !(strLe b a) :=
  charsLt_eq_not_charsLe _ _

/-! ## Executable string utilities

Lean core string functions such as `String.toLower`, `String.endsWith`,
`String.splitOn` and `List.mergeSort` do not reduce inside the kernel, so
the Go string operations are embedded through these list-based versions
(agreeing with the Go originals on the inputs this code handles; case
mapping is ASCII, which covers every key the repository compares). -/

/-- ASCII lowercase of one character (Go `strings.ToLower` restricted to
ASCII). -/
def lowerChar (c : Char) : Char :=
  if 65 ≤ c.toNat ∧ c.toNat ≤ 90 then Char.ofNat (c.toNat + 32) else c

/-- ASCII `strings.ToLower`. -/
def strToLower (s : String) : String := (s.toList.map lowerChar).asString

/-- Go `strings.HasSuffix`. -/
def strEndsWith (s pat : String) : Bool :=
  let a := s.toList
  let b := pat.toList
  b == a.drop (a.length - b.length)

/-- Go `strings.HasPrefix`-style test, used for the leading `/` check. -/
def strStartsWith (s pat : String) : Bool :=
  let a := s.toList
  let b := pat.toList
  b == a.take b.length

/-- Drop the first `n` characters. -/
def strDrop (s : String) (n : Nat) : String := (s.toList.drop n).asString

/-- Drop the last `n` characters. -/
def strDropRight (s : String) (n : Nat) : String :=
  (s.toList.take (s.toList.length - n)).asString

/-- Split on a single separator character, keeping empty parts
(Go `strings.Split` with a one-character separator). -/
def splitOnCharGo (sep : Char) : List Char → List (List Char)
  | [] => [[]]
  | c :: rest =>
    let r := splitOnCharGo sep rest
    if c = sep then [] :: r
    else
      match r with
      | h :: t => (c :: h) :: t
      | [] => [[c]]

def strSplitOnChar (s : String) (sep : Char) : List String :=
  (splitOnCharGo sep s.toList).map List.asString

/-- Replace every occurrence of the two-character pattern `a b` by the
single character `r` (the shape of both `strings.ReplaceAll` calls in the
JSON-pointer unescaper). -/
def replacePairGo (a b r : Char) : List Char → List Char
  | x :: y :: rest =>
    if x = a ∧ y = b then r :: replacePairGo a b r rest
    else x :: replacePairGo a b r (y :: rest)
  | l => l

def strReplacePair (s : String) (a b r : Char) : String :=
  (replacePairGo a b r s.toList).asString

/-- Go `strings.Join`. -/
def strIntercalate (sep : String) : List String → String
  | [] => ""
  | [x] => x
  | x :: rest => x ++ sep ++ strIntercalate sep rest

/-! ### Executable sorting

Go sorts with `sort.Slice`/`sort.Strings`; the embedding uses insertion
sort, which the kernel can evaluate.  Only sortedness and the permutation
property matter to any claim (`sort.Slice` is not stable). -/

def insertSorted (le : α → α → Bool) (x : α) : List α → List α
  | [] => [x]
  | y :: ys => if le x y then x :: y :: ys else y :: insertSorted le x ys

def sortBy (le : α → α → Bool) : List α → List α
  | [] => []
  | x :: xs => insertSorted le x (sortBy le xs)

theorem insertSorted_perm (le : α → α → Bool) (x : α) (l : List α) :
    List.Perm (insertSorted le x l) (x :: l) := by
  induction l with
  | nil => simp [insertSorted]
  | cons y ys ih =>
    simp only [insertSorted]
    split
    · exact List.Perm.refl _
    · exact List.Perm.trans (List.Perm.cons y ih) (List.Perm.swap x y ys)

theorem sortBy_perm (le : α → α → Bool) (l : List α) : List.Perm (sortBy le l) l := by
  induction l with
  | nil => simp [sortBy]
  | cons x xs ih =>
    exact List.Perm.trans (insertSorted_perm le x (sortBy le xs)) (List.Perm.cons x ih)

theorem mem_insertSorted {le : α → α → Bool} {x z : α} {l : List α} :
    z ∈ insertSorted le x l ↔ z = x ∨ z ∈ l := by
  constructor
  · intro h
    have := (insertSorted_perm le x l).mem_iff.mp h
    simpa using this
  · intro h
    apply (insertSorted_perm le x l).mem_iff.mpr
    simpa using h

theorem insertSorted_pairwise {le : α → α → Bool}
    (total : ∀ a b, le a b || le b a)
    (trans : ∀ a b c, le a b = true → le b c = true → le a c = true)
    (x : α) {l : List α} (h : l.Pairwise (le · ·)) :
    (insertSorted le x l).Pairwise (le · ·) := by
  induction l with
  | nil => simp [insertSorted]
  | cons y ys ih =>
    simp only [insertSorted]
    split <;> rename_i hxy
    · refine List.Pairwise.cons ?_ h
      intro z hz
      rcases List.mem_cons.mp hz with rfl | hz
      · exact hxy
      · exact trans _ _ _ hxy (List.rel_of_pairwise_cons h hz)
    · refine List.Pairwise.cons ?_ (ih (List.Pairwise.of_cons h))
      intro z hz
      rcases mem_insertSorted.mp hz with rfl | hz
      · have := total z y
        rcases Bool.or_eq_true _ _ |>.mp this with h1 | h1
        · exact absurd h1 (by simpa using hxy)
        · exact h1
      · exact List.rel_of_pairwise_cons h hz

theorem sortBy_pairwise {le : α → α → Bool}
    (total : ∀ a b, le a b || le b a)
    (trans : ∀ a b c, le a b = true → le b c = true → le a c = true)
    (l : List α) : (sortBy le l).Pairwise (le · ·) := by
  induction l with
  | nil => simp [sortBy]
  | cons x xs ih => exact insertSorted_pairwise total trans x ih

/-! ## JSON-like tree values

The shared data representation: Go `any` values decoded from a spec, the
compiled schema (`map[string]any`), and the walked filesystem instance all
live in this type.  Objects are association lists (Go maps have unique
keys; lookup takes the first match). -/

inductive JValue where
  | null : JValue
  | bool : Bool → JValue
  | num : Int → JValue
  | str : String → JValue
  | obj : List (String × JValue) → JValue
  | arr : List JValue → JValue

/-- Field lookup in an object field list, mirroring Go map indexing. -/
def lookupField : List (String × JValue) → String → Option JValue
  | [], _ => none
  | (k, v) :: rest, key => if k = key then some v else lookupField rest key

/-- A decoded Go `map[string]any` (schema objects, DSL nodes, walker
output directories all share this shape). -/
abbrev Smap := List (String × JValue)

/-! ## validate.go: result types and error normalization -/

/-- One reported violation (validate.go `Item`).  The `Details` field of the
Go struct is never set by this pipeline; it is carried as an `Option`. -/
structure Item where
  instancePath : String
  schemaPath : String
  keyword : String
  message : String
  details : Option JValue

/-- The cause tree produced by the JSON Schema engine
(`jsonschema.ValidationError`): locations, a message, and nested causes. -/
inductive VError where
  | mk (instanceLocation : String) (keywordLocation : String)
       (absoluteKeywordLocation : String) (message : String)
       (causes : List VError)

def VError.instanceLocation : VError → String
  | .mk il _ _ _ _ => il

def VError.keywordLocation : VError → String
  | .mk _ kl _ _ _ => kl

def VError.absoluteKeywordLocation : VError → String
  | .mk _ _ akl _ _ => akl

def VError.message : VError → String
  | .mk _ _ _ m _ => m

def VError.causes : VError → List VError
  | .mk _ _ _ _ cs => cs

/-- validate.go `normalizePath`. -/
def normalizePath (path : String) : String :=
  if path = "" then ""
  else if path = "/" then "/"
  else path

/-- validate.go `keywordFromLocation`: last `/`-separated component of the
keyword location, after stripping one trailing slash. -/
def keywordFromLocation (location : String) : String :=
  if location = "" then ""
  else
    let trimmed := if strEndsWith location "/" then strDropRight location 1 else location
    if trimmed = "" ∨ trimmed = "/" then ""
    else
      let parts := strSplitOnChar trimmed '/'
      parts.getLastD ""

/-- validate.go `schemaPath`: prefer the absolute keyword location. -/
def schemaPathOf (e : VError) : String :=
  if e.absoluteKeywordLocation ≠ "" then e.absoluteKeywordLocation
  else e.keywordLocation

/-- The `Item` built from one leaf cause inside validate.go `flattenErrors`. -/
def mkItem (e : VError) : Item :=
  { instancePath := normalizePath e.instanceLocation
    schemaPath := schemaPathOf e
    keyword := keywordFromLocation e.keywordLocation
    message := e.message
    details := none }

/-- Leaves of a cause tree: the violations with no further causes.
Intermediate aggregate nodes are not leaves. -/
def leavesOf (e : VError) : List VError :=
  match e with
  | .mk il kl akl m causes =>
    match causes with
    | [] => [VError.mk il kl akl m []]
    | c :: cs =>
      (List.attach (c :: cs)).flatMap fun x => leavesOf x.1
termination_by sizeOf e
decreasing_by
  rename_i hmem
  have h1 : sizeOf x.1 < sizeOf (c :: cs) := List.sizeOf_lt_of_mem x.2
  simp only [VError.mk.sizeOf_spec]
  omega

/-- The DFS leaf collection performed by the `walk` closure inside
validate.go `flattenErrors`. -/
def collectLeafItems (e : VError) : List Item :=
  match e with
  | .mk il kl akl m causes =>
    match causes with
    | [] => [mkItem (VError.mk il kl akl m [])]
    | c :: cs =>
      (List.attach (c :: cs)).flatMap fun x => collectLeafItems x.1
termination_by sizeOf e
decreasing_by
  rename_i hmem
  have h1 : sizeOf x.1 < sizeOf (c :: cs) := List.sizeOf_lt_of_mem x.2
  simp only [VError.mk.sizeOf_spec]
  omega

/-- Comparator of validate.go `flattenErrors`: instance path ascending, ties
broken by schema path ascending (the non-strict closure of the Go
`sort.Slice` less function). -/
def itemLE (a b : Item) : Bool :=
  strLt a.instancePath b.instancePath ||
    (a.instancePath == b.instancePath && strLe a.schemaPath b.schemaPath)

/-- validate.go `flattenErrors`: collect the leaf causes and sort them. -/
def flattenErrors (e : VError) : List Item :=
  sortBy itemLE (collectLeafItems e)

theorem itemLE_total (a b : Item) : itemLE a b || itemLE b a := by
  unfold itemLE
  rcases h : strLe a.instancePath b.instancePath with _ | _
  · have hba : strLe b.instancePath a.instancePath = true := by
      have := strLe_total a.instancePath b.instancePath
      simp [h] at this
      exact this
    have : strLt b.instancePath a.instancePath = true := by
      rw [strLt_eq_not_strLe, h]; rfl
    simp [this]
  · by_cases heq : a.instancePath = b.instancePath
    · have h1 : strLe a.schemaPath b.schemaPath || strLe b.schemaPath a.schemaPath :=
        strLe_total _ _
      rcases Bool.or_eq_true _ _ |>.mp h1 with h2 | h2
      · simp [heq, h2]
      · simp [heq, h2]
    · have : strLt a.instancePath b.instancePath = true := by
        rw [strLt_eq_not_strLe]
        rcases hba : strLe b.instancePath a.instancePath with _ | _
        · rfl
        · exact absurd (strLe_antisymm h hba) heq
      simp [this]

theorem itemLE_trans (a b c : Item) (hab : itemLE a b = true)
    (hbc : itemLE b c = true) : itemLE a c = true := by
  unfold itemLE at hab hbc ⊢
  rw [strLt_eq_not_strLe] at hab hbc ⊢
  rcases Bool.or_eq_true _ _ |>.mp hab with h1 | h1 <;>
    rcases Bool.or_eq_true _ _ |>.mp hbc with h2 | h2
  · -- strict, strict
    have h1' : strLe b.instancePath a.instancePath = false := by
      simpa using h1
    have h2' : strLe c.instancePath b.instancePath = false := by
      simpa using h2
    rcases hac : strLe c.instancePath a.instancePath with _ | _
    · simp
    · exfalso
      have hbc' : strLe b.instancePath c.instancePath = true := by
        have := strLe_total b.instancePath c.instancePath
        simp [h2'] at this
        exact this
      have : strLe b.instancePath a.instancePath = true := strLe_trans hbc' hac
      simp [this] at h1'
  · -- strict then equal
    obtain ⟨h2a, _⟩ := Bool.and_eq_true _ _ |>.mp h2
    have heq : b.instancePath = c.instancePath := by
      simpa using h2a
    rw [← heq]
    simp [h1]
  · -- equal then strict
    obtain ⟨h1a, _⟩ := Bool.and_eq_true _ _ |>.mp h1
    have heq : a.instancePath = b.instancePath := by
      simpa using h1a
    rw [heq]
    simp [h2]
  · -- equal, equal
    obtain ⟨h1a, h1b⟩ := Bool.and_eq_true _ _ |>.mp h1
    obtain ⟨h2a, h2b⟩ := Bool.and_eq_true _ _ |>.mp h2
    have heq1 : a.instancePath = b.instancePath := by simpa using h1a
    have heq2 : b.instancePath = c.instancePath := by simpa using h2a
    have : a.instancePath = c.instancePath := heq1.trans heq2
    simp [this, strLe_trans h1b h2b]

/-! ## JSON pointer resolution and the glob-presence rewrite (validate.go) -/

/-- Structural equality of JSON values, standing for the deep equality the
JSON Schema engine uses for `const`. -/
def JValue.beq : JValue → JValue → Bool
  | .null, .null => true
  | .bool a, .bool b => a == b
  | .num a, .num b => a == b
  | .str a, .str b => a == b
  | .obj [], .obj [] => true
  | .obj ((k, v) :: fs), .obj ((l, w) :: gs) =>
      k == l && JValue.beq v w && JValue.beq (.obj fs) (.obj gs)
  | .arr [], .arr [] => true
  | .arr (x :: xs), .arr (y :: ys) =>
      JValue.beq x y && JValue.beq (.arr xs) (.arr ys)
  | _, _ => false

/-- validate.go `extractFragment`: the part of a URI after the first `#`,
or the whole string when there is no `#`. -/
def extractFragment (uri : String) : String :=
  match strSplitOnChar uri '#' with
  | [] => uri
  | [_] => uri
  | _ :: rest => strIntercalate "#" rest

/-- JSON Pointer escape decoding inside validate.go `resolveJSONPointer`:
`~1` becomes `/`, then `~0` becomes `~`. -/
def jptrUnescape (part : String) : String :=
  strReplacePair (strReplacePair part '~' '1' '/') '~' '0' '~'

/-- Array index parsing inside validate.go `resolveJSONPointer`: digits
only, empty string parses as 0 (the Go loop simply never runs). -/
def parseArrayIndex (s : String) : Option Nat :=
  s.toList.foldl
    (fun acc c =>
      match acc with
      | none => none
      | some n =>
        if c.toNat < 48 ∨ 57 < c.toNat then none
        else some (n * 10 + (c.toNat - 48)))
    (some 0)

/-- The component walk of validate.go `resolveJSONPointer`. -/
def resolveParts : JValue → List String → Option JValue
  | cur, [] => some cur
  | cur, part :: rest =>
    let p := jptrUnescape part
    match cur with
    | .obj fields =>
      match lookupField fields p with
      | some next => resolveParts next rest
      | none => none
    | .arr elems =>
      match parseArrayIndex p with
      | some idx =>
        if h : idx < elems.length then resolveParts (elems.get ⟨idx, h⟩) rest
        else none
      | none => none
    | _ => none

/-- validate.go `resolveJSONPointer`: walk the schema following an RFC 6901
pointer; `none` models Go returning `nil` for an invalid path. -/
def resolveJSONPointer (schema : JValue) (pointer : String) : Option JValue :=
  if pointer = "" ∨ pointer = "/" then some schema
  else
    let p := if strStartsWith pointer "/" then strDrop pointer 1 else pointer
    resolveParts schema (strSplitOnChar p '/')

/-- validate.go `extractGlobPresencePattern`: the nested type-assertion
chain recognizing the shape propertyNames / not / pattern. -/
def extractGlobPresencePattern (subSchema : JValue) : String :=
  match subSchema with
  | .obj fields =>
    match lookupField fields "propertyNames" with
    | some (.obj pn) =>
      match lookupField pn "not" with
      | some (.obj n) =>
        match lookupField n "pattern" with
        | some (.str p) => p
        | _ => ""
      | _ => ""
    | _ => ""
  | _ => ""

/-- The per-item body of the loop in validate.go
`rewriteGlobPresenceErrors`.  A pointer resolving to JSON null is the Go
`subSchema == nil` early exit. -/
def rewriteItem (schema : JValue) (it : Item) : Item :=
  if it.keyword ≠ "not" then it
  else if extractFragment it.schemaPath = "" then it
  else
    match resolveJSONPointer schema (extractFragment it.schemaPath) with
    | none => it
    | some .null => it
    | some subSchema =>
      if extractGlobPresencePattern subSchema ≠ "" then
        { it with
          message := "no entries matching pattern " ++ extractGlobPresencePattern subSchema
          keyword := "glob-presence" }
      else it

/-- validate.go `rewriteGlobPresenceErrors` (the in-place mutation loop as
a map over the item list). -/
def rewriteGlobPresenceErrors (items : List Item) (schema : JValue) : List Item :=
  items.map (rewriteItem schema)

/-! ## The validation engine

The keyword evaluation itself lives in the external
`santhosh-tekuri/jsonschema/v5` library, not in this repository. -/

/-- Modelled from the spec: the type check of the external JSON Schema
engine; numbers are integers in this embedding, so `number` and `integer`
coincide. -/
def typeCheck (t : String) (v : JValue) : Bool :=
  match t with
  | "object" => match v with | .obj _ => true | _ => false
  | "array" => match v with | .arr _ => true | _ => false
  | "string" => match v with | .str _ => true | _ => false
  | "boolean" => match v with | .bool _ => true | _ => false
  | "null" => match v with | .null => true | _ => false
  | "number" => match v with | .num _ => true | _ => false
  | "integer" => match v with | .num _ => true | _ => false
  | _ => true

/-- The string entries of a `required` array (non-strings are skipped). -/
def requiredStrings (req : List JValue) : List String :=
  req.filterMap fun x => match x with | .str k => some k | _ => none

/-- A leaf violation of keyword `kw` at schema location `sloc` and
instance location `iloc` (the absolute location is anchored at the
resource name `schema.json` the repository registers). -/
def kwLeaf (sloc iloc kw msg : String) : VError :=
  VError.mk iloc (sloc ++ "/" ++ kw) ("schema.json#" ++ sloc ++ "/" ++ kw) msg []

/-- Modelled from the spec: the `type` check of the external engine. -/
def typeErrs (sloc iloc : String) (fields : Smap) (v : JValue) : List VError :=
  match lookupField fields "type" with
  | some (.str t) => if typeCheck t v then [] else [kwLeaf sloc iloc "type" ("expected " ++ t)]
  | _ => []

/-- Modelled from the spec: the `const` check of the external engine. -/
def constErrs (sloc iloc : String) (fields : Smap) (v : JValue) : List VError :=
  match lookupField fields "const" with
  | some c =>
    if JValue.beq v c then [] else [kwLeaf sloc iloc "const" "value does not equal const"]
  | none => []

/-- Modelled from the spec: the `minimum` check of the external engine. -/
def minimumErrs (sloc iloc : String) (fields : Smap) (v : JValue) : List VError :=
  match lookupField fields "minimum", v with
  | some (.num m), .num n => if n < m then [kwLeaf sloc iloc "minimum" "value below minimum"] else []
  | _, _ => []

/-- Modelled from the spec: the `maximum` check of the external engine. -/
def maximumErrs (sloc iloc : String) (fields : Smap) (v : JValue) : List VError :=
  match lookupField fields "maximum", v with
  | some (.num m), .num n => if m < n then [kwLeaf sloc iloc "maximum" "value above maximum"] else []
  | _, _ => []

/-- Modelled from the spec: the `pattern` check of the external engine
(`recog` is the external regular-expression engine). -/
def patternErrs (recog : String → String → Bool) (sloc iloc : String)
    (fields : Smap) (v : JValue) : List VError :=
  match lookupField fields "pattern", v with
  | some (.str p), .str s =>
    if recog p s then []
    else [kwLeaf sloc iloc "pattern" ("string does not match pattern " ++ p)]
  | _, _ => []

/-- Modelled from the spec: the `required` check of the external engine —
one violation per missing key, never short-circuited. -/
def requiredErrs (sloc iloc : String) (fields : Smap) (v : JValue) : List VError :=
  match lookupField fields "required", v with
  | some (.arr req), .obj inst =>
    (requiredStrings req).filterMap fun k =>
      match lookupField inst k with
      | some _ => none
      | none => some (kwLeaf sloc iloc "required" ("missing required property " ++ k))
  | _, _ => []

/-- Modelled from the spec: the `properties` check, with `sub` the
recursive evaluation one level deeper. -/
def propsErrsF (sub : JValue → String → String → JValue → List VError)
    (sloc iloc : String) (fields : Smap) (v : JValue) : List VError :=
  match lookupField fields "properties", v with
  | some (.obj props), .obj inst =>
    props.flatMap fun kv =>
      match lookupField inst kv.1 with
      | some child => sub kv.2 (sloc ++ "/properties/" ++ kv.1) (iloc ++ "/" ++ kv.1) child
      | none => []
  | _, _ => []

/-- Modelled from the spec: the `patternProperties` check. -/
def patPropsErrsF (recog : String → String → Bool)
    (sub : JValue → String → String → JValue → List VError)
    (sloc iloc : String) (fields : Smap) (v : JValue) : List VError :=
  match lookupField fields "patternProperties", v with
  | some (.obj pats), .obj inst =>
    pats.flatMap fun pk =>
      inst.flatMap fun kv =>
        if recog pk.1 kv.1 then
          sub pk.2 (sloc ++ "/patternProperties/" ++ pk.1) (iloc ++ "/" ++ kv.1) kv.2
        else []
  | _, _ => []

/-- Modelled from the spec: the `allOf` check — every failing branch
contributes its violations. -/
def allOfErrsF (sub : JValue → String → String → JValue → List VError)
    (sloc iloc : String) (fields : Smap) (v : JValue) : List VError :=
  match lookupField fields "allOf" with
  | some (.arr subs) =>
    subs.enum.flatMap fun p => sub p.2 (sloc ++ "/allOf/" ++ toString p.1) iloc v
  | _ => []

/-- Modelled from the spec: the `oneOf` check — zero matching branches
surfaces all branch failures as causes; several matching branches is a
distinct violation. -/
def oneOfErrsF (sub : JValue → String → String → JValue → List VError)
    (sloc iloc : String) (fields : Smap) (v : JValue) : List VError :=
  match lookupField fields "oneOf" with
  | some (.arr subs) =>
    let results := subs.enum.map fun p => sub p.2 (sloc ++ "/oneOf/" ++ toString p.1) iloc v
    let matching := (results.filter fun r => r.isEmpty).length
    if matching == 1 then []
    else if matching == 0 then
      [VError.mk iloc (sloc ++ "/oneOf") ("schema.json#" ++ sloc ++ "/oneOf")
        "value does not match any oneOf branch" results.flatten]
    else [kwLeaf sloc iloc "oneOf" "value matches more than one oneOf branch"]
  | _ => []

/-- Modelled from the spec: the `not` check. -/
def notErrsF (sub : JValue → String → String → JValue → List VError)
    (sloc iloc : String) (fields : Smap) (v : JValue) : List VError :=
  match lookupField fields "not" with
  | some s =>
    if (sub s (sloc ++ "/not") iloc v).isEmpty then
      [kwLeaf sloc iloc "not" "value must not match schema"]
    else []
  | none => []

/-- Modelled from the spec: the `propertyNames` check — an aggregate
violation per offending key, carrying the sub-causes. -/
def propNamesErrsF (sub : JValue → String → String → JValue → List VError)
    (sloc iloc : String) (fields : Smap) (v : JValue) : List VError :=
  match lookupField fields "propertyNames", v with
  | some s, .obj inst =>
    inst.flatMap fun kv =>
      match sub s (sloc ++ "/propertyNames") iloc (.str kv.1) with
      | [] => []
      | errs =>
        [VError.mk iloc (sloc ++ "/propertyNames") ("schema.json#" ++ sloc ++ "/propertyNames")
          ("invalid property name " ++ kv.1) errs]
  | _, _ => []

/-- Modelled from the spec: recursive keyword evaluation of the external
JSON Schema engine (`compiled.Validate`), restricted to the keyword
vocabulary this repository emits.  Every violated keyword contributes its
violations and nothing short-circuits.  `fuel` bounds recursion depth
(exhaustion conservatively reports a violation). -/
def validateAt (recog : String → String → Bool) :
    Nat → JValue → String → String → JValue → List VError
  | 0, _, sloc, iloc, _ =>
    [VError.mk iloc sloc ("schema.json#" ++ sloc) "validation recursion limit exceeded" []]
  | fuel + 1, schema, sloc, iloc, v =>
    match schema with
    | .obj fields =>
      typeErrs sloc iloc fields v ++ constErrs sloc iloc fields v ++
        minimumErrs sloc iloc fields v ++ maximumErrs sloc iloc fields v ++
        patternErrs recog sloc iloc fields v ++ requiredErrs sloc iloc fields v ++
        propsErrsF (validateAt recog fuel) sloc iloc fields v ++
        patPropsErrsF recog (validateAt recog fuel) sloc iloc fields v ++
        allOfErrsF (validateAt recog fuel) sloc iloc fields v ++
        oneOfErrsF (validateAt recog fuel) sloc iloc fields v ++
        notErrsF (validateAt recog fuel) sloc iloc fields v ++
        propNamesErrsF (validateAt recog fuel) sloc iloc fields v
    | _ => []

/-- validate.go `Result`. -/
structure Result where
  valid : Bool
  errors : List Item

/-- validate.go `Validate`: evaluate the schema, and on failure flatten the
cause tree to sorted leaf items and apply the glob-presence rewrite.  The
schema-compilation error path (malformed schema) is outside this model. -/
def Validate (recog : String → String → Bool) (fuel : Nat)
    (schema inst : JValue) : Result :=
  match validateAt recog fuel schema "" "" inst with
  | [] => { valid := true, errors := [] }
  | e :: es =>
    let root := VError.mk "" "" "" "instance does not validate against schema" (e :: es)
    { valid := false, errors := rewriteGlobPresenceErrors (flattenErrors root) schema }

/-! ## DSL parsing (expand package, parse side) -/

/-- Go `%q` formatting of a string (escaping beyond quotes not modelled). -/
def goQuoted (s : String) : String := "\"" ++ s ++ "\""

structure ParseOptions where
  caseSensitive : Bool

/-- expand `normalizeKey`: lowercase unless case-sensitive. -/
def normalizeKey (key : String) (opts : ParseOptions) : String :=
  if opts.caseSensitive then key else strToLower key

/-- expand `parseNode`, parameterized by the recursive value parser; `seen`
is the set of normalized keys already accepted. -/
def parseNodeGo (pv : String → JValue → Except String JValue) (opts : ParseOptions) :
    List (String × JValue) → List String → Except String (List (String × JValue))
  | [], _ => .ok []
  | (key, value) :: rest, seen =>
    let norm := normalizeKey key opts
    if seen.contains norm then .error ("duplicate entry " ++ goQuoted key)
    else do
      let parsed ← pv key value
      let restOut ← parseNodeGo pv opts rest (norm :: seen)
      .ok ((key, parsed) :: restOut)

def parseNodeF (pv : String → JValue → Except String JValue) (opts : ParseOptions)
    (node : List (String × JValue)) : Except String (List (String × JValue)) :=
  parseNodeGo pv opts node []

/-- expand `parseList` (with `addEntry` inlined): list entries are bare
strings or single-key maps, deduplicated under normalization. -/
def parseListGo (pv : String → JValue → Except String JValue) (opts : ParseOptions)
    (parent : String) : List JValue → List String → Except String (List (String × JValue))
  | [], _ => .ok []
  | item :: rest, seen =>
    match item with
    | .str s =>
      let norm := normalizeKey s opts
      if seen.contains norm then .error ("duplicate entry " ++ goQuoted s)
      else do
        let restOut ← parseListGo pv opts parent rest (norm :: seen)
        .ok ((s, JValue.bool true) :: restOut)
    | .obj [(k, raw)] => do
      let parsed ← pv k raw
      let norm := normalizeKey k opts
      if seen.contains norm then .error ("duplicate entry " ++ goQuoted k)
      else do
        let restOut ← parseListGo pv opts parent rest (norm :: seen)
        .ok ((k, parsed) :: restOut)
    | .obj _ => .error ("list entry under " ++ goQuoted parent ++ " must have a single key")
    | _ => .error ("list entry under " ++ goQuoted parent ++ " must be string or map")

def parseListF (pv : String → JValue → Except String JValue) (opts : ParseOptions)
    (parent : String) (list : List JValue) : Except String (List (String × JValue)) :=
  parseListGo pv opts parent list []

/-- expand `parseValue`: file-descriptor attribute keys get type checks,
maps and lists recurse.  `fuel` bounds the recursion Go bounds by the
finiteness of the decoded spec value. -/
def parseValue (opts : ParseOptions) : Nat → String → JValue → Except String JValue
  | 0, _, _ => .error "parse recursion limit exceeded"
  | fuel + 1, key, value =>
    if key = "symlink" ∨ key = "content" ∨ key = "sha256" then
      match value with
      | .str s => .ok (.str s)
      | _ => .error (key ++ " must be string")
    else if key = "size" then
      match value with
      | .num n => .ok (.num n)
      | .obj m =>
        match m.find? (fun kv => !(kv.1 = "min" ∨ kv.1 = "max" : Bool)) with
        | some kv =>
          .error ("size object can only have min/max keys, got " ++ goQuoted kv.1)
        | none => .ok (.obj m)
      | _ => .error "size must be number or \x7bmin, max\x7d object"
    else
      match value with
      | .null => .ok .null
      | .bool b => .ok (.bool b)
      | .obj m => JValue.obj <$> parseNodeF (parseValue opts fuel) opts m
      | .arr l => JValue.obj <$> parseListF (parseValue opts fuel) opts key l
      | _ => .error ("unsupported value for " ++ goQuoted key)

/-- expand `ParseDSL`. -/
def ParseDSL (opts : ParseOptions) (fuel : Nat) (root : JValue) :
    Except String (List (String × JValue)) :=
  match root with
  | .obj m => parseNodeF (parseValue opts fuel) opts m
  | .arr l => parseListF (parseValue opts fuel) opts "root" l
  | _ => .error "unsupported DSL root"

/-! ## DSL expansion (expand package, schema side) -/

/-- expand `isGlobPattern`. -/
def isGlobPattern (key : String) : Bool :=
  key.toList.any fun c => c = '*' ∨ c = '?' ∨ c = '['

/-- Scan of a glob character class up to and including the closing `]`
(the inner j-advance of globToRegex). -/
def scanToClose : List Char → Option (String × List Char)
  | [] => none
  | c :: rest =>
    if c = ']' then some ("]", rest)
    else
      match scanToClose rest with
      | some (body, r) => some (c.toString ++ body, r)
      | none => none

/-- The optional `!` negation marker at the start of a glob character
class (the `glob[j] == '!'` advance in globToRegex). -/
def classNeg : List Char → Bool × List Char
  | c :: r => if c = '!' then (true, r) else (false, c :: r)
  | [] => (false, [])

/-- The optional leading literal `]` of a glob character class (the
`glob[j] == ']'` advance in globToRegex). -/
def classLead : List Char → String × List Char
  | c :: r => if c = ']' then ("]", r) else ("", c :: r)
  | [] => ("", [])

/-- Handling of one glob character class (the chars after the opening
bracket): optional `!`, optional leading literal `]`, then the scan to the
closing bracket; `[!...]` is emitted as `[^...]`, anything else verbatim. -/
def classScan (g : String) (rest : List Char) : Except String (String × List Char) :=
  let nr := classNeg rest
  let lr := classLead nr.2
  match scanToClose lr.2 with
  | none => .error ("unclosed character class in glob: " ++ g)
  | some (body, rest3) =>
    .ok ((if nr.1 then "[^" ++ lr.1 ++ body else "[" ++ lr.1 ++ body), rest3)

theorem scanToClose_length {cs : List Char} {body : String} {r : List Char}
    (h : scanToClose cs = some (body, r)) : r.length < cs.length := by
  induction cs generalizing body r with
  | nil => simp [scanToClose] at h
  | cons c rest ih =>
    simp only [scanToClose] at h
    split at h
    · simp at h
      simp [h.2]
    · split at h
      · rename_i body' r' hsc
        simp at h
        have := ih hsc
        simp [← h.2]
        omega
      · simp at h

theorem classNeg_length (cs : List Char) : (classNeg cs).2.length ≤ cs.length := by
  cases cs with
  | nil => simp [classNeg]
  | cons c r =>
    simp only [classNeg]
    split <;> simp

theorem classLead_length (cs : List Char) : (classLead cs).2.length ≤ cs.length := by
  cases cs with
  | nil => simp [classLead]
  | cons c r =>
    simp only [classLead]
    split <;> simp

theorem classScan_length {g : String} {rest : List Char} {cls : String}
    {rest3 : List Char} (h : classScan g rest = .ok (cls, rest3)) :
    rest3.length < rest.length + 1 := by
  simp only [classScan] at h
  rcases hsc : scanToClose (classLead (classNeg rest).2).2 with _ | ⟨body, r⟩ <;>
    rw [hsc] at h
  · simp at h
  · simp only [Except.ok.injEq, Prod.mk.injEq] at h
    have h1 := scanToClose_length hsc
    have h2 := classLead_length (classNeg rest).2
    have h3 := classNeg_length rest
    rw [← h.2]
    omega

/-- The byte loop of expand `globToRegex`; `g` is the whole glob, kept for
error messages.  Every step consumes at least one character, so the fuel
`glob.length + 1` supplied by `globToRegex` can never run out. -/
def globLoop (g : String) : Nat → List Char → Except String String
  | 0, _ => .error "glob recursion limit exceeded"
  | _, [] => .ok ""
  | fuel + 1, c :: rest =>
    match c with
    | '*' => (fun t => ".*" ++ t) <$> globLoop g fuel rest
    | '?' => (fun t => "." ++ t) <$> globLoop g fuel rest
    | '[' =>
      match classScan g rest with
      | .error e => .error e
      | .ok (cls, rest3) =>
        (fun t => cls ++ t) <$> globLoop g fuel rest3
    | '.' | '+' | '^' | '$' | '(' | ')' | '{' | '}' | '|' | '\\' =>
      (fun t => "\\" ++ c.toString ++ t) <$> globLoop g fuel rest
    | _ => (fun t => c.toString ++ t) <$> globLoop g fuel rest

/-- expand `globToRegex`: translate a glob to an anchored regex.  Go
validates the result with `regexp.Compile`; that external engine is the
parameter `reOk`. -/
def globToRegex (reOk : String → Bool) (glob : String) : Except String String := do
  let tail ← globLoop glob (glob.toList.length + 1) glob.toList
  let pattern := "^" ++ tail ++ "$"
  if reOk pattern then .ok pattern
  else .error ("invalid glob pattern " ++ goQuoted glob)

/-- expand `existenceOnlyFileSchema`. -/
def existenceOnlyFileSchema : JValue :=
  .obj [("oneOf", .arr [.obj [("const", .bool true)], .obj [("type", .str "object")]])]

/-- expand `expandSizeConstraint`. -/
def expandSizeConstraint (key : String) (size : JValue) : Except String JValue :=
  match size with
  | .num n => .ok (.obj [("const", .num n)])
  | .obj m => do
    let minFields ←
      match lookupField m "min" with
      | some (.num n) => Except.ok [("minimum", JValue.num n)]
      | some _ => Except.error ("file " ++ goQuoted key ++ " size.min must be number")
      | none => Except.ok []
    let maxFields ←
      match lookupField m "max" with
      | some (.num n) => Except.ok [("maximum", JValue.num n)]
      | some _ => Except.error ("file " ++ goQuoted key ++ " size.max must be number")
      | none => Except.ok []
    .ok (.obj ([("type", JValue.str "integer")] ++ minFields ++ maxFields))
  | _ => .error ("file " ++ goQuoted key ++ " size must be number or \x7bmin, max\x7d")

/-- expand `expandFileDescriptor`: symlink is mutually exclusive with
content/size/sha256; the latter three may combine. -/
def expandFileDescriptor (key : String) (obj : List (String × JValue)) :
    Except String JValue :=
  let hasSymlink := (lookupField obj "symlink").isSome
  let hasContent := (lookupField obj "content").isSome
  let hasSize := (lookupField obj "size").isSome
  let hasSha256 := (lookupField obj "sha256").isSome
  if hasSymlink ∧ (hasContent ∨ hasSize ∨ hasSha256) then
    .error ("file " ++ goQuoted key ++ ": symlink cannot be combined with content/size/sha256")
  else if hasSymlink then
    match lookupField obj "symlink" with
    | some (.str target) =>
      .ok (.obj [("type", .str "object"),
        ("properties", .obj [("symlink", .obj [("const", .str target)])]),
        ("required", .arr [.str "symlink"])])
    | _ => .error ("file " ++ goQuoted key ++ " symlink target must be string")
  else if hasContent ∨ hasSize ∨ hasSha256 then do
    let contentPart ←
      if hasContent then
        match lookupField obj "content" with
        | some (.str c) =>
          Except.ok ([("content", JValue.obj [("const", JValue.str c)])], ["content"])
        | _ => Except.error ("file " ++ goQuoted key ++ " content must be string")
      else Except.ok ([], [])
    let sizePart ←
      if hasSize then
        match lookupField obj "size" with
        | some sz => do
          let sizeSchema ← expandSizeConstraint key sz
          Except.ok ([("size", sizeSchema)], ["size"])
        | none => Except.ok ([], [])
      else Except.ok ([], [])
    let shaPart ←
      if hasSha256 then
        match lookupField obj "sha256" with
        | some (.str h) =>
          Except.ok ([("sha256", JValue.obj [("const", JValue.str h)])], ["sha256"])
        | _ => Except.error ("file " ++ goQuoted key ++ " sha256 must be string")
      else Except.ok ([], [])
    let props := contentPart.1 ++ sizePart.1 ++ shaPart.1
    let required := sortBy strLe (contentPart.2 ++ sizePart.2 ++ shaPart.2)
    .ok (.obj [("type", .str "object"), ("properties", .obj props),
      ("required", .arr (required.map JValue.str))])
  else
    let keys := sortBy strLe (obj.map Prod.fst)
    .error ("file " ++ goQuoted key ++ " has unsupported descriptor keys: [" ++
      strIntercalate " " keys ++ "]")

/-- expand `expandFileValue`. -/
def expandFileValue (key : String) (value : JValue) : Except String JValue :=
  match value with
  | .null => .ok existenceOnlyFileSchema
  | .bool true => .ok existenceOnlyFileSchema
  | .bool false => .error ("file " ++ goQuoted key ++ " must be true or object, got false")
  | .obj m => expandFileDescriptor key m
  | _ => .error ("file " ++ goQuoted key ++ " must be true or object")

/-- expand `expandDirectoryValue`, parameterized by the recursive
directory expansion. -/
def expandDirectoryValueF (ed : List (String × JValue) → Except String JValue)
    (key : String) (value : JValue) : Except String JValue :=
  match value with
  | .null => ed []
  | .obj m => ed m
  | _ => .error ("directory " ++ goQuoted key ++ " must map to an object")

/-- Sort an association list by key (the sorted-keys iteration of
expand `expandDir`; Go map keys are unique). -/
def sortPairsByKey (node : List (String × JValue)) : List (String × JValue) :=
  sortBy (fun a b => strLe a.1 b.1) node

/-- The per-key classification loop of expand `expandDir`, accumulating
(properties, patternProperties, required) in key order. -/
def expandEntriesF (reOk : String → Bool)
    (ed : List (String × JValue) → Except String JValue) :
    List (String × JValue) →
    Except String (List (String × JValue) × List (String × JValue) × List String)
  | [] => .ok ([], [], [])
  | (key, value) :: rest =>
    if strEndsWith key "/" then
      if isGlobPattern key then do
        let patternBase := strDropRight key 1
        let regexPattern ← globToRegex reOk (patternBase ++ "/")
        let schema ← expandDirectoryValueF ed key value
        let tail ← expandEntriesF reOk ed rest
        .ok (tail.1, (regexPattern, schema) :: tail.2.1, tail.2.2)
      else do
        let schema ← expandDirectoryValueF ed key value
        let tail ← expandEntriesF reOk ed rest
        .ok ((key, schema) :: tail.1, tail.2.1, key :: tail.2.2)
    else
      if isGlobPattern key then do
        let regexPattern ← globToRegex reOk key
        let schema ← expandFileValue key value
        let tail ← expandEntriesF reOk ed rest
        .ok (tail.1, (regexPattern, schema) :: tail.2.1, tail.2.2)
      else do
        let schema ← expandFileValue key value
        let tail ← expandEntriesF reOk ed rest
        .ok ((key, schema) :: tail.1, tail.2.1, key :: tail.2.2)

/-- expand `expandDir`: keys in sorted order, glob keys to
patternProperties (never required), literal keys to properties and
required; `required` is always present, `properties` and
`patternProperties` only when non-empty. -/
def expandDir (reOk : String → Bool) : Nat → List (String × JValue) → Except String JValue
  | 0, _ => .error "expand recursion limit exceeded"
  | fuel + 1, node => do
    let tail ← expandEntriesF reOk (expandDir reOk fuel) (sortPairsByKey node)
    let props := tail.1
    let pats := tail.2.1
    let req := tail.2.2
    .ok (.obj ([("type", JValue.str "object")]
      ++ (if props.isEmpty then [] else [("properties", JValue.obj props)])
      ++ (if pats.isEmpty then [] else [("patternProperties", JValue.obj pats)])
      ++ [("required", JValue.arr (req.map JValue.str))]))

/-- expand `ExpandDSL`: parse then expand. -/
def ExpandDSL (reOk : String → Bool) (fuel : Nat) (root : JValue) :
    Except String JValue := do
  let parsed ← ParseDSL ⟨false⟩ fuel root
  expandDir reOk fuel parsed

/-! ## Filesystem model

Paths are lists of name components relative to the root (the root itself
is `[]` and always a directory).  Symlink targets are stored verbatim as
strings, interpreted as root-relative paths when resolved.  A filesystem
is a finite map from paths to entries. -/

inductive FSEntry where
  | file : String → FSEntry
  | dir : FSEntry
  | symlink : String → FSEntry

abbrev FS := List (List String × FSEntry)

/-- Render a path for error messages (root is `/`). -/
def pathStr (p : List String) : String := "/" ++ strIntercalate "/" p

def lookupFS : FS → List String → Option FSEntry
  | [], _ => none
  | (q, e) :: rest, p => if q = p then some e else lookupFS rest p

/-- Entry lookup with the root directory existing implicitly. -/
def lookupE (fs : FS) (p : List String) : Option FSEntry :=
  if p = [] then some .dir else lookupFS fs p

/-- Go `os.Stat` success, modelled as entry existence (symlink traversal
at the final component is not modelled). -/
def pathExistsFS (fs : FS) (p : List String) : Bool := (lookupE fs p).isSome

def removeFS (fs : FS) (p : List String) : FS :=
  fs.filter fun kv => !(kv.1 == p)

def setFS (fs : FS) (p : List String) (e : FSEntry) : FS :=
  (p, e) :: removeFS fs p

/-- Go `os.MkdirAll`: create every missing ancestor directory; fail when
an existing entry on the way is not a directory. -/
def mkdirAllGo (done : List String) : FS → List String → Except String FS
  | fs, [] => .ok fs
  | fs, c :: rest =>
    let q := done ++ [c]
    match lookupE fs q with
    | some .dir => mkdirAllGo q fs rest
    | some _ => .error ("mkdir " ++ pathStr q ++ ": not a directory")
    | none => mkdirAllGo q (setFS fs q .dir) rest

def mkdirAll (fs : FS) (dir : List String) : Except String FS :=
  mkdirAllGo [] fs dir

/-! ## Hydration planner (hydrate.BuildPlan and helpers) -/

inductive OpKind where
  | mkdir
  | writefile
  | symlink

/-- The Go `OpKind` string constants (used by the plan sort tiebreak). -/
def OpKind.str : OpKind → String
  | .mkdir => "mkdir"
  | .writefile => "writefile"
  | .symlink => "symlink"

/-- hydrate `Op`.  The Go struct carries both the absolute `Path` and the
root-relative `RelPath`; the root prefix carries no information, so only
the relative component path is kept. -/
structure Op where
  kind : OpKind
  relPath : List String
  content : Option String
  target : String
  overwrite : Bool

structure Plan where
  ops : List Op

/-- hydrate `requiredKeys`: the string entries of `required`, sorted. -/
def requiredKeys (schema : Smap) : List String :=
  match lookupField schema "required" with
  | some (.arr l) =>
    sortBy strLe (l.filterMap fun x => match x with | .str s => some s | _ => none)
  | _ => []

/-- hydrate `isFileDescriptorProperties`. -/
def isFileDescriptorProperties (props : Smap) : Bool :=
  (props.all fun kv =>
    kv.1 = "size" ∨ kv.1 = "sha256" ∨ kv.1 = "content" ∨ kv.1 = "mode" ∨
    kv.1 = "defaultContent" ∨ kv.1 = "overwritable" ∨ kv.1 = "symlink") &&
  !props.isEmpty

/-- hydrate `isDirectorySchema`. -/
def isDirectorySchema (schema : Smap) (name : String) : Bool :=
  if strEndsWith name "/" then true
  else
    match lookupField schema "properties" with
    | some (.obj props) =>
      if props.any fun kv => strEndsWith kv.1 "/" then true
      else if isFileDescriptorProperties props then false
      else true
    | _ => false

/-- hydrate `overwritableFromSchema`. -/
def overwritableFromSchema (schema : Smap) : Except String Bool :=
  match lookupField schema "overwritable" with
  | some (.bool b) => .ok b
  | some _ => .error "overwritable must be boolean"
  | none => .ok false

/-- hydrate `fileDefaults`. -/
def fileDefaults (schema : Smap) : Except String (Option String × Bool) := do
  let content ←
    match lookupField schema "defaultContent" with
    | some (.str s) => Except.ok (some s)
    | some _ => Except.error "defaultContent must be string"
    | none => Except.ok none
  let overwrite ← overwritableFromSchema schema
  .ok (content, overwrite)

/-- hydrate `symlinkTargetFromSchema`: a literal const target under the
`symlink` property, `none` when the schema is not symlink-shaped. -/
def symlinkTargetFromSchema (schema : Smap) : Except String (Option String) :=
  match lookupField schema "properties" with
  | some (.obj props) =>
    match lookupField props "symlink" with
    | some (.obj raw) =>
      match lookupField raw "const" with
      | none => .error "symlink requires const target for hydration"
      | some (.str target) => .ok (some target)
      | some _ => .error "symlink const must be string"
    | _ => .ok none
  | _ => .ok none

/-- The loop body of hydrate `collectOps` over the sorted required names;
`recur` is the recursive call into a child directory schema and `ex` the
`pathExists` probe against the root. -/
def collectEntriesGo (recur : Smap → List String → Except String (List Op))
    (ex : List String → Bool) (schema : Smap) :
    List String → List String → Except String (List Op)
  | [], _ => .ok []
  | name :: rest, rel =>
    let props := match lookupField schema "properties" with
      | some (.obj p) => p
      | _ => []
    match lookupField props name with
    | none => .error ("required entry " ++ goQuoted name ++ " missing schema")
    | some childRaw =>
      match childRaw with
      | .obj childSchema =>
        -- filepath.Join cleans the trailing slash of directory names
        let cleanName := if strEndsWith name "/" then strDropRight name 1 else name
        let childRel := rel ++ [cleanName]
        if isDirectorySchema childSchema name then do
          let childOps ← recur childSchema childRel
          let dirOps :=
            if ex childRel then []
            else [{ kind := .mkdir, relPath := childRel, content := none,
                    target := "", overwrite := false : Op }]
          let restOps ← collectEntriesGo recur ex schema rest rel
          .ok (dirOps ++ childOps ++ restOps)
        else
          match symlinkTargetFromSchema childSchema with
          | .error e => .error e
          | .ok (some target) => do
            let overwrite ← overwritableFromSchema childSchema
            let opOps :=
              if ex childRel then []
              else [{ kind := .symlink, relPath := childRel, content := none,
                      target := target, overwrite := overwrite : Op }]
            let restOps ← collectEntriesGo recur ex schema rest rel
            .ok (opOps ++ restOps)
          | .ok none => do
            let defaults ← fileDefaults childSchema
            let opOps :=
              if ex childRel then []
              else [{ kind := .writefile, relPath := childRel, content := defaults.1,
                      target := "", overwrite := defaults.2 : Op }]
            let restOps ← collectEntriesGo recur ex schema rest rel
            .ok (opOps ++ restOps)
      | _ => .error ("schema for " ++ goQuoted name ++ " must be object")

/-- hydrate `collectOps`: recurse over the required-entries tree (`fuel`
bounds the recursion Go bounds by the finiteness of the schema). -/
def collectOps (ex : List String → Bool) : Nat → Smap → List String → Except String (List Op)
  | 0, _, _ => .error "hydrate recursion limit exceeded"
  | fuel + 1, schema, rel =>
    collectEntriesGo (collectOps ex fuel) ex schema (requiredKeys schema) rel

/-- Comparator of hydrate `stableSortOps`: relative path, then kind. -/
def opLE (a b : Op) : Bool :=
  let ar := strIntercalate "/" a.relPath
  let br := strIntercalate "/" b.relPath
  strLt ar br || (ar == br && strLe a.kind.str b.kind.str)

def stableSortOps (ops : List Op) : List Op := sortBy opLE ops

/-- hydrate `BuildPlan`. -/
def BuildPlan (ex : List String → Bool) (fuel : Nat) (schema : Smap) :
    Except String Plan := do
  let ops ← collectOps ex fuel schema []
  .ok ⟨stableSortOps ops⟩

/-! ## Hydration applier (hydrate.Apply and helpers) -/

structure ApplyOptions where
  force : Bool
  dryRun : Bool

def relPathStr (op : Op) : String := strIntercalate "/" op.relPath

/-- hydrate `applyWrite`: parents on demand, then refuse to overwrite an
existing path unless both the force flag and the overwrite flag are set,
otherwise write the op content (empty when absent). -/
def applyWrite (op : Op) (opts : ApplyOptions) (fs : FS) : FS × Option String :=
  if opts.dryRun then (fs, none)
  else
    match mkdirAll fs op.relPath.dropLast with
    | .error e => (fs, some ("mkdir for file " ++ relPathStr op ++ ": " ++ e))
    | .ok fs1 =>
      if pathExistsFS fs1 op.relPath ∧ ¬(opts.force ∧ op.overwrite) then
        (fs1, some ("refusing to overwrite " ++ relPathStr op))
      else
        (setFS fs1 op.relPath (.file (op.content.getD "")), none)

/-- hydrate `applySymlink`: parents on demand; an existing path is removed
before recreation when force and the overwrite flag allow it, otherwise
the apply refuses. -/
def applySymlink (op : Op) (opts : ApplyOptions) (fs : FS) : FS × Option String :=
  if opts.dryRun then (fs, none)
  else
    match mkdirAll fs op.relPath.dropLast with
    | .error e => (fs, some ("mkdir for symlink " ++ relPathStr op ++ ": " ++ e))
    | .ok fs1 =>
      if pathExistsFS fs1 op.relPath then
        if ¬(opts.force ∧ op.overwrite) then
          (fs1, some ("refusing to overwrite " ++ relPathStr op))
        else
          (setFS (removeFS fs1 op.relPath) op.relPath (.symlink op.target), none)
      else (setFS fs1 op.relPath (.symlink op.target), none)

/-- hydrate `Apply`: run the plan in order, stopping at the first error. -/
def Apply (ops : List Op) (opts : ApplyOptions) (fs : FS) : FS × Option String :=
  match ops with
  | [] => (fs, none)
  | op :: rest =>
    let step : FS × Option String :=
      match op.kind with
      | .mkdir =>
        if opts.dryRun then (fs, none)
        else
          match mkdirAll fs op.relPath with
          | .error e => (fs, some ("mkdir " ++ relPathStr op ++ ": " ++ e))
          | .ok fs1 => (fs1, none)
      | .writefile => applyWrite op opts fs
      | .symlink => applySymlink op opts fs
    match step with
    | (fs1, none) => Apply rest opts fs1
    | (fs1, some e) => (fs1, some e)

/-! ## Schema-guided filesystem walker (fswalk package)

Symlink targets are interpreted as root-relative component paths.  The Go
code relies on the operating system for symlink resolution
(`filepath.EvalSymlinks`, with its limit of 255 traversed links) and on
`crypto/sha256`; the former is embedded below, the latter is the
parameter `sha`.  The mutable `visited` set shared through the recursion
is threaded explicitly: every function returns the set as Go leaves it. -/

inductive SymlinkPolicy where
  | error
  | ignore
  | record
  | follow
  deriving DecidableEq

/-- fswalk `Options`. -/
structure Options where
  includeSize : Bool
  includeSHA256 : Bool
  includeContent : Bool
  maxContentBytes : Int
  symlinkPolicy : SymlinkPolicy

/-- Go `filepath.EvalSymlinks`: resolve a path component by component,
restarting at a symlink target, with a budget of 255 traversed links
(`too many links` when exceeded).  `fuel` only bounds the recursion; the
wrapper passes enough for the budget to be the binding limit. -/
def evalSymlinksGo (fs : FS) : Nat → Nat → List String → List String → Except String (List String)
  | 0, _, _, _ => .error "resolution recursion limit exceeded"
  | _ + 1, _, done, [] => .ok done
  | fuel + 1, budget, done, c :: rest =>
    let q := done ++ [c]
    match lookupE fs q with
    | none => .error ("no such file or directory: " ++ pathStr q)
    | some (.symlink t) =>
      if budget = 0 then .error "EvalSymlinks: too many links"
      else evalSymlinksGo fs fuel (budget - 1) [] (strSplitOnChar t '/' ++ rest)
    | some _ => evalSymlinksGo fs fuel budget q rest

def evalSymlinks (fs : FS) (p : List String) : Except String (List String) :=
  evalSymlinksGo fs (256 * (p.length + 16)) 255 [] p

/-- Go `os.ReadDir` names (sorted ascending as the walker sorts them);
assumes the filesystem map has no duplicate keys. -/
def readDirNames (fs : FS) (p : List String) : List String :=
  sortBy strLe (fs.filterMap fun kv =>
    match kv.1.getLast? with
    | some n => if kv.1.dropLast = p then some n else none
    | none => none)

abbrev Visited := List (List String)

/-- fswalk `fileValue`: `true` when no attribute is requested, otherwise
the requested subset of size, sha256 and content, with the hard error on
oversized reads.  The path must already be resolved. -/
def fileValue (fs : FS) (p : List String) (opts : Options) (sha : String → String) :
    Except String JValue :=
  if !(opts.includeSize || opts.includeSHA256 || opts.includeContent) then .ok (.bool true)
  else
    match lookupE fs p with
    | some (.file content) =>
      let sizeAttrs : List (String × JValue) :=
        if opts.includeSize then [("size", .num content.utf8ByteSize)] else []
      if opts.includeSHA256 || opts.includeContent then
        if opts.maxContentBytes > 0 ∧ (content.utf8ByteSize : Int) > opts.maxContentBytes then
          .error ("content exceeds max bytes: " ++ pathStr p)
        else
          let shaAttrs : List (String × JValue) :=
            if opts.includeSHA256 then [("sha256", .str (sha content))] else []
          let contentAttrs : List (String × JValue) :=
            if opts.includeContent then [("content", .str content)] else []
          let attrs := sizeAttrs ++ shaAttrs ++ contentAttrs
          if attrs.isEmpty then .ok (.bool true) else .ok (.obj attrs)
      else if sizeAttrs.isEmpty then .ok (.bool true)
      else .ok (.obj sizeAttrs)
    | _ => .error ("read " ++ pathStr p ++ ": not a file")

/-- fswalk `schemaExpectsDir`: child schema for `name + "/"` from
properties or the first matching pattern; the outer `Option` is the Go
`bool`, the inner one covers a non-map child schema (Go returns nil). -/
def schemaExpectsDir (recog : String → String → Bool) (name : String)
    (props pats : Smap) : Option (Option Smap) :=
  let dirKey := name ++ "/"
  match lookupField props dirKey with
  | some (.obj cs) => some (some cs)
  | some _ => some none
  | none =>
    match pats.find? fun kv => recog kv.1 dirKey with
    | some kv =>
      match kv.2 with
      | .obj cs => some (some cs)
      | _ => some none
    | none => none

/-- fswalk `schemaLookupFile`: a non-directory entry in properties, else
the first matching pattern whose schema is a map. -/
def schemaLookupFile (recog : String → String → Bool) (name : String)
    (props pats : Smap) : Option Smap :=
  if strEndsWith name "/" then none
  else
    match lookupField props name with
    | some (.obj cs) => some cs
    | _ =>
      match pats.find? fun kv =>
          recog kv.1 name && (match kv.2 with | .obj _ => true | _ => false) with
      | some ⟨_, .obj cs⟩ => some cs
      | _ => none

/-- fswalk `schemaExpectsSymlink`. -/
def schemaExpectsSymlink (recog : String → String → Bool) (name : String)
    (props pats : Smap) : Bool :=
  match schemaLookupFile recog name props pats with
  | some raw =>
    match lookupField raw "properties" with
    | some (.obj ps) => (lookupField ps "symlink").isSome
    | _ => false
  | none => false

/-- fswalk `schemaExpectsFile`. -/
def schemaExpectsFile (recog : String → String → Bool) (name : String)
    (props pats : Smap) : Bool :=
  match schemaLookupFile recog name props pats with
  | some raw =>
    match lookupField raw "properties" with
    | some (.obj ps) => !(lookupField ps "symlink").isSome
    | _ => true
  | none => false

/-- fswalk `handleSchemaSymlink`, parameterized by the recursive walk.
Result: `ok (some entry)` when handled, `ok none` to fall through to the
policy, or an error; paired with the visited set as left by the call. -/
def handleSchemaSymlinkF
    (walk : List String → Option Smap → Visited → Except String JValue × Visited)
    (recog : String → String → Bool) (sha : String → String) (fs : FS) (opts : Options)
    (name : String) (full realDir : List String) (props pats : Smap) (v : Visited) :
    Except String (Option (String × JValue)) × Visited :=
  match schemaExpectsDir recog name props pats with
  | some childSchema =>
    match evalSymlinks fs full with
    | .error e => (.error ("resolve symlink " ++ pathStr full ++ ": " ++ e), v)
    | .ok resolved =>
      match lookupE fs resolved with
      | none => (.error ("stat symlink target " ++ pathStr full), v)
      | some .dir =>
        match walk full childSchema v with
        | (.ok child, v') => (.ok (some (name ++ "/", child)), v')
        | (.error e, v') => (.error e, v')
      | some _ => (.ok none, v)
  | none =>
    if schemaExpectsSymlink recog name props pats then
      match lookupE fs (realDir ++ [name]) with
      | some (.symlink t) => (.ok (some (name, .obj [("symlink", .str t)])), v)
      | _ => (.error ("read symlink " ++ pathStr full), v)
    else if schemaExpectsFile recog name props pats then
      match evalSymlinks fs full with
      | .error e => (.error ("resolve symlink " ++ pathStr full ++ ": " ++ e), v)
      | .ok resolved =>
        match lookupE fs resolved with
        | none => (.error ("stat symlink target " ++ pathStr full), v)
        | some .dir => (.ok none, v)
        | some _ =>
          match fileValue fs resolved opts sha with
          | .ok value => (.ok (some (name, value)), v)
          | .error e => (.error e, v)
    else (.ok none, v)

/-- fswalk `handleFollowSymlink`, parameterized by the recursive walk. -/
def handleFollowSymlinkF
    (walk : List String → Option Smap → Visited → Except String JValue × Visited)
    (sha : String → String) (fs : FS) (opts : Options)
    (name : String) (full : List String) (v : Visited) :
    Except String (String × JValue) × Visited :=
  match evalSymlinks fs full with
  | .error e => (.error ("resolve symlink " ++ pathStr full ++ ": " ++ e), v)
  | .ok resolved =>
    match lookupE fs resolved with
    | none => (.error ("stat symlink target " ++ pathStr full), v)
    | some .dir =>
      match walk full none v with
      | (.ok child, v') => (.ok (name ++ "/", child), v')
      | (.error e, v') => (.error e, v')
    | some _ =>
      match fileValue fs resolved opts sha with
      | .ok value => (.ok (name, value), v)
      | .error e => (.error e, v)

/-- Handling of one directory entry inside the walkDirInner loop: symlink
entries go through the schema-guided handler, then the follow handler or
the fallback policy; directories recurse; regular files get their value. -/
def walkEntryStep
    (walk : List String → Option Smap → Visited → Except String JValue × Visited)
    (recog : String → String → Bool) (sha : String → String) (fs : FS) (opts : Options)
    (hasSchema : Bool) (props pats : Smap) (dir realDir : List String)
    (name : String) (v : Visited) :
    Except String (List (String × JValue)) × Visited :=
  match lookupE fs (realDir ++ [name]) with
  | some (.symlink target) =>
    match (if hasSchema then
        handleSchemaSymlinkF walk recog sha fs opts name (dir ++ [name]) realDir props pats v
      else (.ok none, v)) with
    | (.error e, v') => (.error e, v')
    | (.ok (some kv), v') => (.ok [kv], v')
    | (.ok none, v') =>
      if opts.symlinkPolicy = .follow then
        match handleFollowSymlinkF walk sha fs opts name (dir ++ [name]) v' with
        | (.ok kv, v'') => (.ok [kv], v'')
        | (.error e, v'') => (.error e, v'')
      else
        match opts.symlinkPolicy with
        | .ignore => (.ok [], v')
        | .record => (.ok [(name, .obj [("symlink", .str target)])], v')
        | _ => (.error ("symlink not supported: " ++ pathStr (dir ++ [name])), v')
  | some .dir =>
    match walk (dir ++ [name])
        (match schemaExpectsDir recog name props pats with
         | some cs => cs
         | none => none) v with
    | (.ok child, v') => (.ok [(name ++ "/", child)], v')
    | (.error e, v') => (.error e, v')
  | some (.file _) =>
    match fileValue fs (realDir ++ [name]) opts sha with
    | .ok value => (.ok [(name, value)], v)
    | .error e => (.error e, v)
  | none => (.error ("lstat " ++ pathStr (dir ++ [name]) ++ ": no such file"), v)

/-- The per-entry loop of fswalk `walkDirInner`, threading the visited
set through the sequential entry processing exactly as the shared Go map
is threaded. -/
def walkEntriesF
    (walk : List String → Option Smap → Visited → Except String JValue × Visited)
    (recog : String → String → Bool) (sha : String → String) (fs : FS) (opts : Options)
    (hasSchema : Bool) (props pats : Smap) (dir realDir : List String) :
    List String → Visited → Except String (List (String × JValue)) × Visited
  | [], v => (.ok [], v)
  | name :: rest, v =>
    match walkEntryStep walk recog sha fs opts hasSchema props pats dir realDir name v with
    | (.error e, v') => (.error e, v')
    | (.ok kvs, v') =>
      match walkEntriesF walk recog sha fs opts hasSchema props pats dir realDir rest v' with
      | (.ok out, v'') => (.ok (kvs ++ out), v'')
      | (.error e, v'') => (.error e, v'')

/-- The properties / patternProperties extraction at the top of fswalk
`walkDirInner` (empty when the schema is nil or the key is not a map). -/
def schemaKeyOf (schema : Option Smap) (key : String) : Smap :=
  match schema with
  | some s =>
    match lookupField s key with
    | some (.obj p) => p
    | _ => []
  | none => []

/-- fswalk `walkDirInner`: canonicalize the directory, fail on an active
cycle, record the canonical path in the visited set, walk the sorted
entries, and remove the canonical path on the way out (the Go `defer
delete`).  `fuel` bounds the recursion Go bounds by cycle detection and
the finiteness of the tree. -/
def walkDirInner (recog : String → String → Bool) (sha : String → String)
    (fs : FS) (opts : Options) :
    Nat → List String → Option Smap → Visited → Except String JValue × Visited
  | 0, _, _, visited => (.error "walk recursion limit exceeded", visited)
  | fuel + 1, dir, schema, visited =>
    match evalSymlinks fs dir with
    | .error e => (.error ("resolve symlink " ++ pathStr dir ++ ": " ++ e), visited)
    | .ok realDir =>
      if visited.contains realDir then
        (.error ("symlink cycle detected: " ++ pathStr dir), visited)
      else
        match lookupE fs realDir with
        | some .dir =>
          match walkEntriesF (walkDirInner recog sha fs opts fuel) recog sha fs opts
              schema.isSome (schemaKeyOf schema "properties")
              (schemaKeyOf schema "patternProperties")
              dir realDir (readDirNames fs realDir) (realDir :: visited) with
          | (.ok out, v2) => (.ok (.obj out), v2.erase realDir)
          | (.error e, v2) => (.error e, v2.erase realDir)
        | _ =>
          (.error ("read dir " ++ pathStr dir ++ ": not a directory"),
            (realDir :: visited).erase realDir)

/-- fswalk `WalkWithSchema` (the root is a directory by construction of
the model). -/
def WalkWithSchema (recog : String → String → Bool) (sha : String → String)
    (fs : FS) (opts : Options) (schema : Option Smap) (fuel : Nat) :
    Except String JValue :=
  (walkDirInner recog sha fs opts fuel [] schema []).1

/-- fswalk `Walk`: policy-only walking, no schema. -/
def Walk (recog : String → String → Bool) (sha : String → String)
    (fs : FS) (opts : Options) (fuel : Nat) : Except String JValue :=
  WalkWithSchema recog sha fs opts none fuel

/-! ## Attribute pre-scan (instance.ScanAttributes) -/

def DefaultMaxContentBytes : Int := 1048576

/-- The flag updates for the keys of one `properties` object (the inner
propKey switch of instance `scanMap`). -/
def flagsFromPropKeys : List (String × JValue) → Options → Options
  | [], o => o
  | (k, _) :: rest, o =>
    let o1 :=
      if k = "size" then { o with includeSize := true }
      else if k = "sha256" then { o with includeSHA256 := true }
      else if k = "content" then { o with includeContent := true }
      else o
    flagsFromPropKeys rest o1

/-- Recursion into the children of a `properties` object (the second loop
of the `properties` branch of instance `scanMap`). -/
def scanChildren (deeper : List (String × JValue) → Options → Options) :
    List (String × JValue) → Options → Options
  | [], o => o
  | (_, child) :: rest, o =>
    let o1 :=
      match child with
      | .obj m => deeper m o
      | _ => o
    scanChildren deeper rest o1

/-- One level of instance `scanMap`: a `properties` key with an object
value contributes flags from its keys and recursion into its children;
every other key recurses into its value when that value is an object
(arrays are never traversed). -/
def scanStep (deeper : List (String × JValue) → Options → Options) :
    List (String × JValue) → Options → Options
  | [], o => o
  | (key, value) :: rest, o =>
    let o1 :=
      if key = "properties" then
        match value with
        | .obj props => scanChildren deeper props (flagsFromPropKeys props o)
        | _ => o
      else
        match value with
        | .obj m => deeper m o
        | _ => o
    scanStep deeper rest o1

/-- instance `scanMap` (`fuel` bounds the recursion Go bounds by the
finiteness of the schema). -/
def scanMap : Nat → List (String × JValue) → Options → Options
  | 0, _, o => o
  | fuel + 1, fields, o => scanStep (scanMap fuel) fields o

/-- instance `ScanAttributes`: walk options with the fixed content ceiling
and record policy, plus the flags found by scanning the schema. -/
def ScanAttributes (fuel : Nat) (schema : Smap) : Options :=
  scanMap fuel schema
    { includeSize := false, includeSHA256 := false, includeContent := false,
      maxContentBytes := DefaultMaxContentBytes, symlinkPolicy := .record }

/-! ## Lemmas about error flattening and the glob-presence rewrite -/

theorem flatMap_congr_mem {α β : Type _} {l : List α} {f g : α → List β}
    (h : ∀ x ∈ l, f x = g x) : l.flatMap f = l.flatMap g := by
  induction l with
  | nil => rfl
  | cons a as ih =>
    simp only [List.flatMap_cons]
    rw [h a (by simp), ih fun x hx => h x (by simp [hx])]

theorem collectLeafItems_eq (e : VError) : collectLeafItems e = (leavesOf e).map mkItem := by
  induction e using collectLeafItems.induct with
  | case1 il kl akl m => simp [collectLeafItems, leavesOf]
  | case2 il kl akl m c cs ih =>
    rw [collectLeafItems, leavesOf]
    rw [List.map_flatMap]
    exact flatMap_congr_mem fun x hx => ih x

theorem leavesOf_causes_nil {e l : VError} (h : l ∈ leavesOf e) : l.causes = [] := by
  induction e using leavesOf.induct with
  | case1 il kl akl m =>
    simp [leavesOf] at h
    simp [h, VError.causes]
  | case2 il kl akl m c cs ih =>
    rw [leavesOf] at h
    simp only [List.mem_flatMap, List.mem_attach, true_and] at h
    obtain ⟨x, hx⟩ := h
    exact ih x hx

/-- Leaves with an empty cause list appear among the collected leaves. -/
theorem mkItem_mem_collect {il kl akl m : String} {causes : List VError} {c : VError}
    (hc : c ∈ causes) (hleaf : c.causes = []) :
    mkItem c ∈ collectLeafItems (VError.mk il kl akl m causes) := by
  match causes, hc with
  | c' :: cs', hc =>
    rw [collectLeafItems]
    simp only [List.mem_flatMap, List.mem_attach, true_and]
    refine ⟨⟨c, hc⟩, ?_⟩
    obtain ⟨cil, ckl, cakl, cm, ccauses⟩ := c
    simp [VError.causes] at hleaf
    subst hleaf
    simp [collectLeafItems]

theorem mem_flattenErrors {e : VError} {it : Item} :
    it ∈ flattenErrors e ↔ it ∈ collectLeafItems e :=
  (sortBy_perm itemLE (collectLeafItems e)).mem_iff

theorem flattenErrors_sorted (e : VError) :
    (flattenErrors e).Pairwise (fun a b => itemLE a b = true) :=
  sortBy_pairwise itemLE_total itemLE_trans (collectLeafItems e)

theorem flattenErrors_length (e : VError) :
    (flattenErrors e).length = (leavesOf e).length := by
  rw [flattenErrors, (sortBy_perm itemLE (collectLeafItems e)).length_eq,
    collectLeafItems_eq, List.length_map]

/-- The rewrite touches only keyword and message, and only on items whose
keyword is `not` and whose schema path resolves to the recognized shape. -/
theorem rewriteItem_spec (schema : JValue) (it : Item) :
    (rewriteItem schema it).instancePath = it.instancePath ∧
    (rewriteItem schema it).schemaPath = it.schemaPath ∧
    (rewriteItem schema it).details = it.details ∧
    (rewriteItem schema it ≠ it →
      it.keyword = "not" ∧
      ∃ sub, resolveJSONPointer schema (extractFragment it.schemaPath) = some sub ∧
        extractGlobPresencePattern sub ≠ "" ∧
        (rewriteItem schema it).keyword = "glob-presence" ∧
        (rewriteItem schema it).message =
          "no entries matching pattern " ++ extractGlobPresencePattern sub) := by
  by_cases hkw : it.keyword = "not"
  case neg =>
    have hrw : rewriteItem schema it = it := by
      unfold rewriteItem
      rw [if_pos hkw]
    rw [hrw]
    simp
  case pos =>
    by_cases hfrag : extractFragment it.schemaPath = ""
    · have hrw : rewriteItem schema it = it := by
        unfold rewriteItem
        rw [if_neg (by simp [hkw]), if_pos hfrag]
      rw [hrw]
      simp
    · rcases hres : resolveJSONPointer schema (extractFragment it.schemaPath) with _ | sub
      · have hrw : rewriteItem schema it = it := by
          unfold rewriteItem
          rw [if_neg (by simp [hkw]), if_neg hfrag, hres]
        rw [hrw]
        simp
      · by_cases hpat : extractGlobPresencePattern sub = ""
        · have hrw : rewriteItem schema it = it := by
            unfold rewriteItem
            rw [if_neg (by simp [hkw]), if_neg hfrag, hres]
            cases sub <;> simp [hpat]
          rw [hrw]
          simp
        · cases sub with
          | null =>
            simp [extractGlobPresencePattern] at hpat
          | obj fields =>
            have hrw : rewriteItem schema it =
                { it with
                  message := "no entries matching pattern " ++
                    extractGlobPresencePattern (JValue.obj fields)
                  keyword := "glob-presence" } := by
              unfold rewriteItem
              rw [if_neg (by simp [hkw]), if_neg hfrag, hres]
              simp only []
              rw [if_pos hpat]
            rw [hrw]
            refine ⟨rfl, rfl, rfl, fun _ => ⟨hkw, JValue.obj fields, rfl, hpat, rfl, rfl⟩⟩
          | bool b => simp [extractGlobPresencePattern] at hpat
          | num n => simp [extractGlobPresencePattern] at hpat
          | str s => simp [extractGlobPresencePattern] at hpat
          | arr l => simp [extractGlobPresencePattern] at hpat

theorem rewriteItem_of_keyword_ne (schema : JValue) {it : Item}
    (h : it.keyword ≠ "not") : rewriteItem schema it = it := by
  unfold rewriteItem
  simp [h]

theorem strAppend_left_cancel {p a b : String} (h : p ++ a = p ++ b) : a = b := by
  obtain ⟨pd⟩ := p
  obtain ⟨ad⟩ := a
  obtain ⟨bd⟩ := b
  have h2 : pd ++ ad = pd ++ bd := congrArg String.data h
  have h3 := List.append_cancel_left h2
  rw [h3]

/-! ## C1: exhaustive required reporting -/

/-- The leaf violation the engine emits for one missing required key. -/
def missingRequiredLeaf (k : String) : VError :=
  VError.mk "" "/required" "schema.json#/required" ("missing required property " ++ k) []

/-- The reported item for one missing required key at the instance root. -/
def missingRequiredItem (k : String) : Item :=
  { instancePath := "", schemaPath := "schema.json#/required", keyword := "required",
    message := "missing required property " ++ k, details := none }

theorem mkItem_missingRequiredLeaf (k : String) :
    mkItem (missingRequiredLeaf k) = missingRequiredItem k := rfl

theorem missingRequired_mem_requiredErrs
    (ifields : Smap) (req : List JValue) (k : String)
    (hk : k ∈ requiredStrings req)
    (hmiss : lookupField ifields k = none) :
    missingRequiredLeaf k ∈ requiredErrs "" "" [("required", JValue.arr req)] (.obj ifields) := by
  unfold requiredErrs
  simp only [lookupField, if_pos rfl]
  apply List.mem_filterMap.mpr
  refine ⟨k, hk, ?_⟩
  rw [hmiss]
  rfl

theorem requiredErrs_lookup_congr
    (sloc iloc : String) (sfields : Smap) (req : List JValue) (v : JValue)
    (hreq : lookupField sfields "required" = some (.arr req)) :
    requiredErrs sloc iloc sfields v = requiredErrs sloc iloc [("required", JValue.arr req)] v := by
  unfold requiredErrs
  rw [hreq]
  simp [lookupField]

theorem missingRequired_mem_validateAt
    (recog : String → String → Bool) (fuel : Nat) (sfields ifields : Smap)
    (req : List JValue) (k : String)
    (hreq : lookupField sfields "required" = some (.arr req))
    (hk : k ∈ requiredStrings req)
    (hmiss : lookupField ifields k = none) :
    missingRequiredLeaf k ∈
      validateAt recog (fuel + 1) (.obj sfields) "" "" (.obj ifields) := by
  have hmem : missingRequiredLeaf k ∈ requiredErrs "" "" sfields (.obj ifields) := by
    rw [requiredErrs_lookup_congr _ _ _ req _ hreq]
    exact missingRequired_mem_requiredErrs ifields req k hk hmiss
  show missingRequiredLeaf k ∈
    typeErrs "" "" sfields (.obj ifields) ++ constErrs "" "" sfields (.obj ifields) ++
      minimumErrs "" "" sfields (.obj ifields) ++ maximumErrs "" "" sfields (.obj ifields) ++
      patternErrs recog "" "" sfields (.obj ifields) ++ requiredErrs "" "" sfields (.obj ifields) ++
      propsErrsF (validateAt recog fuel) "" "" sfields (.obj ifields) ++
      patPropsErrsF recog (validateAt recog fuel) "" "" sfields (.obj ifields) ++
      allOfErrsF (validateAt recog fuel) "" "" sfields (.obj ifields) ++
      oneOfErrsF (validateAt recog fuel) "" "" sfields (.obj ifields) ++
      notErrsF (validateAt recog fuel) "" "" sfields (.obj ifields) ++
      propNamesErrsF (validateAt recog fuel) "" "" sfields (.obj ifields)
  simp only [List.mem_append]
  tauto

theorem missingRequiredItem_injective : Function.Injective missingRequiredItem := by
  intro a b h
  have := congrArg Item.message h
  simp only [missingRequiredItem] at this
  exact strAppend_left_cancel this

/-- C1.  For every compiled schema whose required list names three distinct
properties and every instance object supplying none of them, validation is
invalid, the error list carries one missing-required item per name, and
hence at least three items: the required check is not short-circuited. -/
theorem c1_required_not_short_circuited
    (recog : String → String → Bool) (fuel : Nat) (sfields ifields : Smap)
    (req : List JValue)
    (hreq : lookupField sfields "required" = some (.arr req))
    (hlen : (requiredStrings req).length = 3)
    (hnd : (requiredStrings req).Nodup)
    (hmiss : ∀ k ∈ requiredStrings req, lookupField ifields k = none) :
    (Validate recog (fuel + 1) (.obj sfields) (.obj ifields)).valid = false ∧
    (∀ k ∈ requiredStrings req,
      missingRequiredItem k ∈ (Validate recog (fuel + 1) (.obj sfields) (.obj ifields)).errors) ∧
    3 ≤ (Validate recog (fuel + 1) (.obj sfields) (.obj ifields)).errors.length := by
  have hleafmem : ∀ k ∈ requiredStrings req,
      missingRequiredLeaf k ∈ validateAt recog (fuel + 1) (.obj sfields) "" "" (.obj ifields) :=
    fun k hk => missingRequired_mem_validateAt recog fuel sfields ifields req k hreq hk (hmiss k hk)
  obtain ⟨k0, hk0⟩ : ∃ k, k ∈ requiredStrings req := by
    apply List.exists_mem_of_ne_nil
    intro hnil
    rw [hnil] at hlen
    simp at hlen
  rcases hva : validateAt recog (fuel + 1) (.obj sfields) "" "" (.obj ifields) with _ | ⟨e0, es⟩
  · exfalso
    have := hleafmem k0 hk0
    rw [hva] at this
    simp at this
  · have hvalid : (Validate recog (fuel + 1) (.obj sfields) (.obj ifields)).valid = false := by
      unfold Validate
      rw [hva]
    have herr : (Validate recog (fuel + 1) (.obj sfields) (.obj ifields)).errors =
        rewriteGlobPresenceErrors
          (flattenErrors
            (VError.mk "" "" "" "instance does not validate against schema" (e0 :: es)))
          (.obj sfields) := by
      unfold Validate
      rw [hva]
    have hitemmem : ∀ k ∈ requiredStrings req,
        missingRequiredItem k ∈ (Validate recog (fuel + 1) (.obj sfields) (.obj ifields)).errors := by
      intro k hk
      have h1 : missingRequiredLeaf k ∈ (e0 :: es) := by
        have := hleafmem k hk
        rwa [hva] at this
      have h2 : mkItem (missingRequiredLeaf k) ∈ collectLeafItems
          (VError.mk "" "" "" "instance does not validate against schema" (e0 :: es)) :=
        mkItem_mem_collect h1 rfl
      have h3 : missingRequiredItem k ∈ flattenErrors
          (VError.mk "" "" "" "instance does not validate against schema" (e0 :: es)) := by
        rw [← mkItem_missingRequiredLeaf]
        exact mem_flattenErrors.mpr h2
      have h4 := List.mem_map_of_mem (rewriteItem (JValue.obj sfields)) h3
      rw [rewriteItem_of_keyword_ne _ (by simp [missingRequiredItem])] at h4
      rw [herr]
      exact h4
    refine ⟨hvalid, hitemmem, ?_⟩
    have hsub : (requiredStrings req).map missingRequiredItem ⊆
        (Validate recog (fuel + 1) (.obj sfields) (.obj ifields)).errors := by
      intro x hx
      obtain ⟨k, hk, rfl⟩ := List.mem_map.mp hx
      exact hitemmem k hk
    have hndm : ((requiredStrings req).map missingRequiredItem).Nodup :=
      hnd.map missingRequiredItem_injective
    have := (List.subperm_of_subset hndm hsub).length_le
    rw [List.length_map, hlen] at this
    exact this

/-! ## C2: only sorted leaf violations are reported -/

/-- The root cause-tree node the engine hands to `flattenErrors` when
validation fails (`none` when the instance is valid). -/
def validationRoot (recog : String → String → Bool) (fuel : Nat)
    (schema inst : JValue) : Option VError :=
  match validateAt recog fuel schema "" "" inst with
  | [] => none
  | e :: es => some (VError.mk "" "" "" "instance does not validate against schema" (e :: es))

/-- C2.  Whenever Validate reports invalid, its error list is exactly the
leaves of the cause tree (aggregates discarded): same count, every item
from a leaf, every leaf represented, sorted by instance path with ties on
schema path.  Determinism is inherent: the pipeline is a function. -/
theorem c2_errors_sorted_leaf_violations
    (recog : String → String → Bool) (fuel : Nat) (schema inst : JValue)
    (hinv : (Validate recog fuel schema inst).valid = false) :
    ∃ root, validationRoot recog fuel schema inst = some root ∧
      (Validate recog fuel schema inst).errors.Pairwise (fun a b => itemLE a b = true) ∧
      (Validate recog fuel schema inst).errors.length = (leavesOf root).length ∧
      (∀ it ∈ (Validate recog fuel schema inst).errors,
        ∃ e ∈ leavesOf root, e.causes = [] ∧
          it.instancePath = normalizePath e.instanceLocation ∧
          it.schemaPath = schemaPathOf e) ∧
      (∀ e ∈ leavesOf root, ∃ it ∈ (Validate recog fuel schema inst).errors,
          it.instancePath = normalizePath e.instanceLocation ∧
          it.schemaPath = schemaPathOf e) := by
  rcases hva : validateAt recog fuel schema "" "" inst with _ | ⟨e0, es⟩
  · exfalso
    unfold Validate at hinv
    rw [hva] at hinv
    simp at hinv
  · refine ⟨VError.mk "" "" "" "instance does not validate against schema" (e0 :: es),
      ?_, ?_, ?_, ?_, ?_⟩
    case _ =>
      unfold validationRoot
      rw [hva]
    all_goals
      have herr : (Validate recog fuel schema inst).errors =
          rewriteGlobPresenceErrors
            (flattenErrors
              (VError.mk "" "" "" "instance does not validate against schema" (e0 :: es)))
            schema := by
        unfold Validate
        rw [hva]
    case _ =>
      rw [herr]
      unfold rewriteGlobPresenceErrors
      refine List.Pairwise.map _ ?_ (flattenErrors_sorted _)
      intro a b hab
      have ha := rewriteItem_spec schema a
      have hb := rewriteItem_spec schema b
      unfold itemLE at hab ⊢
      rw [ha.1, ha.2.1, hb.1, hb.2.1]
      exact hab
    case _ =>
      rw [herr]
      unfold rewriteGlobPresenceErrors
      rw [List.length_map, flattenErrors_length]
    case _ =>
      intro it hit
      rw [herr] at hit
      obtain ⟨it', hit', rfl⟩ := List.mem_map.mp hit
      have hcoll : it' ∈ collectLeafItems
          (VError.mk "" "" "" "instance does not validate against schema" (e0 :: es)) :=
        mem_flattenErrors.mp hit'
      rw [collectLeafItems_eq] at hcoll
      obtain ⟨e, he, rfl⟩ := List.mem_map.mp hcoll
      refine ⟨e, he, leavesOf_causes_nil he, ?_, ?_⟩
      · rw [(rewriteItem_spec schema (mkItem e)).1]
        rfl
      · rw [(rewriteItem_spec schema (mkItem e)).2.1]
        rfl
    case _ =>
      intro e he
      have h1 : mkItem e ∈ collectLeafItems
          (VError.mk "" "" "" "instance does not validate against schema" (e0 :: es)) := by
        rw [collectLeafItems_eq]
        exact List.mem_map_of_mem _ he
      have h2 := mem_flattenErrors.mpr h1
      refine ⟨rewriteItem schema (mkItem e), ?_, ?_, ?_⟩
      · rw [herr]
        exact List.mem_map_of_mem _ h2
      · rw [(rewriteItem_spec schema (mkItem e)).1]
        rfl
      · rw [(rewriteItem_spec schema (mkItem e)).2.1]
        rfl

theorem c1_witness :
    (Validate (fun _ _ => false) 1
      (.obj [("required", .arr [.str "a", .str "b", .str "c"])]) (.obj [])).valid = false ∧
    (∀ k ∈ requiredStrings [JValue.str "a", JValue.str "b", JValue.str "c"],
      missingRequiredItem k ∈ (Validate (fun _ _ => false) 1
        (.obj [("required", .arr [.str "a", .str "b", .str "c"])]) (.obj [])).errors) ∧
    3 ≤ (Validate (fun _ _ => false) 1
      (.obj [("required", .arr [.str "a", .str "b", .str "c"])]) (.obj [])).errors.length :=
  c1_required_not_short_circuited (fun _ _ => false) 0
    [("required", .arr [.str "a", .str "b", .str "c"])] []
    [JValue.str "a", JValue.str "b", JValue.str "c"]
    rfl rfl (by decide) (fun k _ => rfl)

theorem c2_witness :
    ∃ root, validationRoot (fun _ _ => false) 1
        (.obj [("required", .arr [.str "a"])]) (.obj []) = some root ∧
      (Validate (fun _ _ => false) 1
        (.obj [("required", .arr [.str "a"])]) (.obj [])).errors.Pairwise
          (fun a b => itemLE a b = true) ∧
      (Validate (fun _ _ => false) 1
        (.obj [("required", .arr [.str "a"])]) (.obj [])).errors.length =
          (leavesOf root).length ∧
      (∀ it ∈ (Validate (fun _ _ => false) 1
          (.obj [("required", .arr [.str "a"])]) (.obj [])).errors,
        ∃ e ∈ leavesOf root, e.causes = [] ∧
          it.instancePath = normalizePath e.instanceLocation ∧
          it.schemaPath = schemaPathOf e) ∧
      (∀ e ∈ leavesOf root,
        ∃ it ∈ (Validate (fun _ _ => false) 1
            (.obj [("required", .arr [.str "a"])]) (.obj [])).errors,
          it.instancePath = normalizePath e.instanceLocation ∧
          it.schemaPath = schemaPathOf e) :=
  c2_errors_sorted_leaf_violations (fun _ _ => false) 1
    (.obj [("required", .arr [.str "a"])]) (.obj []) rfl

/-! ## C8: the glob-presence rewrite is a pure diagnostic transform -/

/-- C8.  The rewrite maps the item list pointwise: the count, every
instance path, schema path and details field are unchanged; an item
changes at all only when its keyword is `not` and its schema path
resolves in the original schema to the propertyNames/not/pattern shape
(then only keyword and message change).  The verdict is fixed before the
rewrite runs, and the error count equals the leaf count of the cause
tree. -/
theorem c8_rewrite_is_frame_preserving
    (schema : JValue) (items : List Item)
    (recog : String → String → Bool) (fuel : Nat) (s inst : JValue) :
    (rewriteGlobPresenceErrors items schema).length = items.length ∧
    rewriteGlobPresenceErrors items schema = items.map (rewriteItem schema) ∧
    (∀ it ∈ items,
      (rewriteItem schema it).instancePath = it.instancePath ∧
      (rewriteItem schema it).schemaPath = it.schemaPath ∧
      (rewriteItem schema it).details = it.details ∧
      (rewriteItem schema it ≠ it →
        it.keyword = "not" ∧
        ∃ sub, resolveJSONPointer schema (extractFragment it.schemaPath) = some sub ∧
          extractGlobPresencePattern sub ≠ "" ∧
          (rewriteItem schema it).keyword = "glob-presence" ∧
          (rewriteItem schema it).message =
            "no entries matching pattern " ++ extractGlobPresencePattern sub)) ∧
    ((Validate recog fuel s inst).valid = (validateAt recog fuel s "" "" inst).isEmpty) ∧
    ((Validate recog fuel s inst).errors.length =
      match validationRoot recog fuel s inst with
      | some root => (leavesOf root).length
      | none => 0) := by
  refine ⟨?_, rfl, ?_, ?_, ?_⟩
  · unfold rewriteGlobPresenceErrors
    exact List.length_map _ _
  · intro it _
    exact rewriteItem_spec schema it
  · rcases hva : validateAt recog fuel s "" "" inst with _ | ⟨e, es⟩ <;>
      unfold Validate <;> rw [hva] <;> rfl
  · rcases hva : validateAt recog fuel s "" "" inst with _ | ⟨e, es⟩
    · unfold Validate validationRoot
      rw [hva]
      rfl
    · unfold Validate validationRoot
      rw [hva]
      simp only []
      unfold rewriteGlobPresenceErrors
      rw [List.length_map, flattenErrors_length]

theorem c8_witness :
    (rewriteGlobPresenceErrors [missingRequiredItem "a"] JValue.null).length =
      [missingRequiredItem "a"].length ∧
    rewriteGlobPresenceErrors [missingRequiredItem "a"] JValue.null =
      [missingRequiredItem "a"].map (rewriteItem JValue.null) ∧
    (∀ it ∈ [missingRequiredItem "a"],
      (rewriteItem JValue.null it).instancePath = it.instancePath ∧
      (rewriteItem JValue.null it).schemaPath = it.schemaPath ∧
      (rewriteItem JValue.null it).details = it.details ∧
      (rewriteItem JValue.null it ≠ it →
        it.keyword = "not" ∧
        ∃ sub, resolveJSONPointer JValue.null (extractFragment it.schemaPath) = some sub ∧
          extractGlobPresencePattern sub ≠ "" ∧
          (rewriteItem JValue.null it).keyword = "glob-presence" ∧
          (rewriteItem JValue.null it).message =
            "no entries matching pattern " ++ extractGlobPresencePattern sub)) ∧
    ((Validate (fun _ _ => false) 1 JValue.null JValue.null).valid =
      (validateAt (fun _ _ => false) 1 JValue.null "" "" JValue.null).isEmpty) ∧
    ((Validate (fun _ _ => false) 1 JValue.null JValue.null).errors.length =
      match validationRoot (fun _ _ => false) 1 JValue.null JValue.null with
      | some root => (leavesOf root).length
      | none => 0) :=
  c8_rewrite_is_frame_preserving JValue.null [missingRequiredItem "a"]
    (fun _ _ => false) 1 JValue.null JValue.null

/-! ## C3: glob-to-regex translation and pattern entries -/

/-- C3.  The two reference globs translate to their anchored regexes, and
expanding the one-entry directory DSL with a glob key yields exactly one
patternProperties entry and an empty required list. -/
theorem c3_glob_expansion (reOk : String → Bool)
    (h1 : reOk "^.*\\.go$" = true) (h2 : reOk "^[^abc]\\.txt$" = true) :
    globToRegex reOk "*.go" = .ok "^.*\\.go$" ∧
    globToRegex reOk "[!abc].txt" = .ok "^[^abc]\\.txt$" ∧
    ∀ fuel, ExpandDSL reOk (fuel + 2) (.obj [("*.go", .bool true)]) =
      .ok (.obj [("type", .str "object"),
        ("patternProperties", .obj [("^.*\\.go$", existenceOnlyFileSchema)]),
        ("required", .arr [])]) := by
  have hg1 : globToRegex reOk "*.go" = .ok "^.*\\.go$" := by
    have hstep : globToRegex reOk "*.go" =
        if reOk "^.*\\.go$" then .ok "^.*\\.go$"
        else .error ("invalid glob pattern " ++ goQuoted "*.go") := rfl
    rw [hstep, h1]
    rfl
  have hg2 : globToRegex reOk "[!abc].txt" = .ok "^[^abc]\\.txt$" := by
    have hstep : globToRegex reOk "[!abc].txt" =
        if reOk "^[^abc]\\.txt$" then .ok "^[^abc]\\.txt$"
        else .error ("invalid glob pattern " ++ goQuoted "[!abc].txt") := rfl
    rw [hstep, h2]
    rfl
  refine ⟨hg1, hg2, ?_⟩
  intro fuel
  have hentries : expandEntriesF reOk (expandDir reOk (fuel + 1))
      [("*.go", JValue.bool true)] =
      (globToRegex reOk "*.go").bind fun rp =>
        .ok ([], [(rp, existenceOnlyFileSchema)], []) := rfl
  have hstep : ExpandDSL reOk (fuel + 2) (.obj [("*.go", JValue.bool true)]) =
      (expandEntriesF reOk (expandDir reOk (fuel + 1)) [("*.go", JValue.bool true)]).bind
        fun tail =>
          .ok (.obj ([("type", JValue.str "object")]
            ++ (if tail.1.isEmpty then [] else [("properties", JValue.obj tail.1)])
            ++ (if tail.2.1.isEmpty then [] else [("patternProperties", JValue.obj tail.2.1)])
            ++ [("required", JValue.arr (tail.2.2.map JValue.str))])) := rfl
  rw [hstep, hentries, hg1]
  rfl

theorem c3_witness :
    globToRegex (fun _ => true) "*.go" = .ok "^.*\\.go$" ∧
    globToRegex (fun _ => true) "[!abc].txt" = .ok "^[^abc]\\.txt$" ∧
    ExpandDSL (fun _ => true) 5 (.obj [("*.go", .bool true)]) =
      .ok (.obj [("type", .str "object"),
        ("patternProperties", .obj [("^.*\\.go$", existenceOnlyFileSchema)]),
        ("required", .arr [])]) := by
  have h := c3_glob_expansion (fun _ => true) rfl rfl
  exact ⟨h.1, h.2.1, h.2.2 3⟩

/-! ## C4: the overwrite guard of the applier -/

theorem lookupFS_removeFS_ne {fs : FS} {p q : List String} (h : q ≠ p) :
    lookupFS (removeFS fs p) q = lookupFS fs q := by
  have hpq : p ≠ q := fun hh => h hh.symm
  induction fs with
  | nil => rfl
  | cons kv rest ih =>
    obtain ⟨k, e⟩ := kv
    simp only [removeFS, List.filter_cons] at ih ⊢
    by_cases hk : k = p
    · have hcond : (!((k, e).1 == p)) = false := by simp [hk]
      rw [hcond]
      simp only [Bool.false_eq_true, if_false]
      have hskip : lookupFS ((k, e) :: rest) q = lookupFS rest q := by
        simp only [lookupFS]
        rw [if_neg (by rw [hk]; exact hpq)]
      rw [hskip]
      exact ih
    · have hcond : (!((k, e).1 == p)) = true := by simp [hk]
      rw [hcond]
      simp only [if_true]
      simp only [lookupFS]
      by_cases hq : k = q
      · rw [if_pos hq, if_pos hq]
      · rw [if_neg hq, if_neg hq]
        exact ih

theorem lookupE_setFS_self {fs : FS} {p : List String} (e : FSEntry) (h : p ≠ []) :
    lookupE (setFS fs p e) p = some e := by
  unfold lookupE setFS
  rw [if_neg h]
  simp [lookupFS]

theorem lookupE_setFS_ne {fs : FS} {p q : List String} (e : FSEntry) (h : q ≠ p) :
    lookupE (setFS fs p e) q = lookupE fs q := by
  unfold lookupE setFS
  by_cases hq : q = []
  · simp [hq]
  · rw [if_neg hq, if_neg hq]
    simp only [lookupFS, if_neg (fun h2 : p = q => h (h2 ▸ rfl))]
    exact lookupFS_removeFS_ne h

theorem mkdirAllGo_preserves :
    ∀ (todo done : List String) (fs fs1 : FS),
      mkdirAllGo done fs todo = .ok fs1 →
      ∀ q : List String, done.length + todo.length < q.length →
        lookupE fs1 q = lookupE fs q := by
  intro todo
  induction todo with
  | nil =>
    intro done fs fs1 h q _
    simp only [mkdirAllGo] at h
    cases h
    rfl
  | cons c rest ih =>
    intro done fs fs1 h q hlen
    rw [List.length_cons] at hlen
    simp only [mkdirAllGo] at h
    rcases hl : lookupE fs (done ++ [c]) with _ | e
    · rw [hl] at h
      have h1 := ih (done ++ [c]) (setFS fs (done ++ [c]) FSEntry.dir) fs1 h q
        (by simp only [List.length_append, List.length_cons, List.length_nil]; omega)
      rw [h1]
      apply lookupE_setFS_ne
      intro heq
      rw [heq] at hlen
      simp only [List.length_append, List.length_cons, List.length_nil] at hlen
      omega
    · rw [hl] at h
      cases e with
      | dir =>
        exact ih (done ++ [c]) fs fs1 h q
          (by simp only [List.length_append, List.length_cons, List.length_nil]; omega)
      | file s => simp at h
      | symlink s => simp at h

theorem mkdirAll_preserves {fs fs1 : FS} {d : List String}
    (h : mkdirAll fs d = .ok fs1) {q : List String} (hlen : d.length < q.length) :
    lookupE fs1 q = lookupE fs q :=
  mkdirAllGo_preserves d [] fs fs1 h q (by simpa using hlen)

/-- C4.  A WriteFile or MakeSymlink operation whose target path exists (in
a non-dry run) fails and leaves the entry untouched unless both the force
flag and the overwrite flag are set; when both are set, the file is
overwritten with the op content and an existing entry at a symlink target
is removed and replaced by the new link. -/
theorem c4_overwrite_guard (op : Op) (opts : ApplyOptions) (fs : FS)
    (hdry : opts.dryRun = false)
    (hne : op.relPath ≠ [])
    (hex : pathExistsFS fs op.relPath = true) :
    (¬(opts.force = true ∧ op.overwrite = true) →
      ((applyWrite op opts fs).2.isSome = true ∧
        lookupE (applyWrite op opts fs).1 op.relPath = lookupE fs op.relPath) ∧
      ((applySymlink op opts fs).2.isSome = true ∧
        lookupE (applySymlink op opts fs).1 op.relPath = lookupE fs op.relPath)) ∧
    (opts.force = true ∧ op.overwrite = true →
      (mkdirAll fs op.relPath.dropLast).isOk = true →
        (applyWrite op opts fs).2 = none ∧
        lookupE (applyWrite op opts fs).1 op.relPath = some (.file (op.content.getD "")) ∧
        (applySymlink op opts fs).2 = none ∧
        lookupE (applySymlink op opts fs).1 op.relPath = some (.symlink op.target)) := by
  have hdlen : op.relPath.dropLast.length < op.relPath.length := by
    rw [List.length_dropLast]
    cases hp : op.relPath with
    | nil => exact absurd hp hne
    | cons a as => simp
  unfold applyWrite applySymlink
  rw [if_neg (by simp [hdry]), if_neg (by simp [hdry])]
  rcases hmk : mkdirAll fs op.relPath.dropLast with e | fs1
  · constructor
    · intro _
      exact ⟨⟨rfl, rfl⟩, rfl, rfl⟩
    · intro _ hok
      simp [Except.isOk, Except.toBool] at hok
  · have hpres : lookupE fs1 op.relPath = lookupE fs op.relPath :=
      mkdirAll_preserves hmk hdlen
    have hex1 : pathExistsFS fs1 op.relPath = true := by
      unfold pathExistsFS
      rw [hpres]
      exact hex
    dsimp only
    constructor
    · intro hnf
      constructor
      · rw [if_pos ⟨hex1, hnf⟩]
        exact ⟨rfl, hpres⟩
      · rw [if_pos hex1, if_pos hnf]
        exact ⟨rfl, hpres⟩
    · intro hf _
      rw [if_neg (fun hc => hc.2 hf), if_pos hex1, if_neg (fun hc => hc hf)]
      refine ⟨rfl, lookupE_setFS_self _ hne, rfl, ?_⟩
      exact lookupE_setFS_self _ hne

theorem c4_witness :
    (let op : Op := Op.mk .writefile ["a.txt"] (some "new") "t" false
     let fs : FS := [(["a.txt"], .file "old")]
     (¬((false : Bool) = true ∧ op.overwrite = true) →
       ((applyWrite op (ApplyOptions.mk false false) fs).2.isSome = true ∧
         lookupE (applyWrite op (ApplyOptions.mk false false) fs).1 op.relPath =
           lookupE fs op.relPath) ∧
       ((applySymlink op (ApplyOptions.mk false false) fs).2.isSome = true ∧
         lookupE (applySymlink op (ApplyOptions.mk false false) fs).1 op.relPath =
           lookupE fs op.relPath)) ∧
     (((false : Bool) = true ∧ op.overwrite = true) →
       (mkdirAll fs op.relPath.dropLast).isOk = true →
         (applyWrite op (ApplyOptions.mk false false) fs).2 = none ∧
         lookupE (applyWrite op (ApplyOptions.mk false false) fs).1 op.relPath =
           some (.file (op.content.getD "")) ∧
         (applySymlink op (ApplyOptions.mk false false) fs).2 = none ∧
         lookupE (applySymlink op (ApplyOptions.mk false false) fs).1 op.relPath =
           some (.symlink op.target))) :=
  c4_overwrite_guard (Op.mk .writefile ["a.txt"] (some "new") "t" false)
    (ApplyOptions.mk false false) [(["a.txt"], .file "old")] rfl (by simp) rfl

/-! ## C5: patternProperties and the hydration planner -/

/-- A schema node whose only entries are pattern-keyed. -/
def c5Schema : Smap :=
  [("type", .str "object"),
   ("patternProperties", .obj [("^.*\\.go$", .obj [("type", .str "object")])]),
   ("required", .arr [])]

/-- C5 counterexample: building a plan for a schema containing
`patternProperties` (and no hydratable literal entries) succeeds with an
empty plan — it does not fail with a hard error as claimed. -/
theorem c5_counterexample :
    BuildPlan (fun _ => false) 1 c5Schema = .ok ⟨[]⟩ ∧
    (lookupField c5Schema "patternProperties").isSome = true :=
  ⟨rfl, rfl⟩

/-- Erase the `patternProperties` entries of one schema node (the node
itself only: entry names inside `properties` are data, not keywords, and
are left alone). -/
def removePatternProps : Smap → Smap
  | [] => []
  | (k, v) :: rest =>
    if k = "patternProperties" then removePatternProps rest
    else (k, v) :: removePatternProps rest

/-- A node carrying both a literal required entry and pattern entries. -/
def c5MixedSchema : Smap :=
  [("type", .str "object"),
   ("properties", .obj [("README.md", .obj [("type", .str "string")])]),
   ("patternProperties", .obj [("^.*\\.go$", .obj [("type", .str "object")])]),
   ("required", .arr [.str "README.md"])]

theorem lookupField_removePP (m : Smap) (key : String)
    (h : ¬ key = "patternProperties") :
    lookupField (removePatternProps m) key = lookupField m key := by
  induction m with
  | nil => rfl
  | cons kv rest ih =>
    obtain ⟨k, v⟩ := kv
    by_cases hk : k = "patternProperties"
    · subst hk
      rw [removePatternProps, if_pos rfl, ih, lookupField, if_neg fun he => h he.symm]
    · rw [removePatternProps, if_neg hk, lookupField, lookupField, ih]

theorem requiredKeys_removePP (schema : Smap) :
    requiredKeys (removePatternProps schema) = requiredKeys schema := by
  rw [requiredKeys, requiredKeys, lookupField_removePP _ _ (by decide)]

theorem collectEntriesGo_removePP
    (recur : Smap → List String → Except String (List Op))
    (ex : List String → Bool) (schema : Smap) :
    ∀ (names rel : List String),
      collectEntriesGo recur ex (removePatternProps schema) names rel =
        collectEntriesGo recur ex schema names rel := by
  intro names
  induction names with
  | nil => intro rel; rfl
  | cons name rest ih =>
    intro rel
    simp only [collectEntriesGo]
    rw [lookupField_removePP _ _ (by decide), ih]

theorem collectOps_removePP (ex : List String → Bool) (fuel : Nat) (schema : Smap)
    (rel : List String) :
    collectOps ex fuel (removePatternProps schema) rel = collectOps ex fuel schema rel := by
  cases fuel with
  | zero => rfl
  | succ fuel =>
    rw [collectOps, collectOps, requiredKeys_removePP, collectEntriesGo_removePP]

/-- C5 amended.  The planner never fails on account of `patternProperties`
at any node, mixed nodes with literal required siblings included: every
node the planner visits is the schema argument of some `collectOps` call,
and for every such call erasing the node's `patternProperties` entries
changes nothing — `collectOps` and `BuildPlan` are invariant under the
erasure; in particular a node whose entries are all pattern-keyed has an
empty required list and contributes an empty plan rather than an error. -/
theorem c5_pattern_entries_invisible (ex : List String → Bool) (fuel : Nat)
    (schema : Smap) :
    (∀ rel : List String,
       collectOps ex fuel (removePatternProps schema) rel =
         collectOps ex fuel schema rel) ∧
    BuildPlan ex fuel (removePatternProps schema) = BuildPlan ex fuel schema ∧
    (requiredKeys schema = [] → 0 < fuel → BuildPlan ex fuel schema = .ok ⟨[]⟩) := by
  refine ⟨fun rel => collectOps_removePP ex fuel schema rel, ?_, ?_⟩
  · rw [BuildPlan, BuildPlan, collectOps_removePP]
  · intro hreq hpos
    cases fuel with
    | zero => exact absurd hpos (Nat.lt_irrefl 0)
    | succ fuel =>
      unfold BuildPlan collectOps
      rw [hreq]
      rfl

/-- The amended C5 theorem at concrete inputs: the all-pattern node plans
to the empty plan, and on the mixed node (a literal required entry next to
pattern entries) the plan ignores the pattern entries and writes the
required file. -/
theorem c5_witness :
    BuildPlan (fun _ => true) 1 c5Schema = .ok ⟨[]⟩ ∧
    BuildPlan (fun _ => false) 2 (removePatternProps c5MixedSchema) =
      BuildPlan (fun _ => false) 2 c5MixedSchema ∧
    BuildPlan (fun _ => false) 2 c5MixedSchema =
      .ok ⟨[Op.mk .writefile ["README.md"] none "" false]⟩ :=
  ⟨(c5_pattern_entries_invisible (fun _ => true) 1 c5Schema).2.2 rfl (by decide),
   (c5_pattern_entries_invisible (fun _ => false) 2 c5MixedSchema).2.1,
   rfl⟩

/-! ## C6: symlink conflicts with content, size and sha256 -/

/-- C6.  A descriptor carrying `symlink` together with any of `content`,
`size` or `sha256` fails expansion with the conflict error, and the whole
`ExpandDSL` compilation of a spec containing such a descriptor fails with
that error and produces no schema. -/
theorem c6_symlink_conflict (key : String) (obj : Smap)
    (hsym : (lookupField obj "symlink").isSome = true)
    (hany : (lookupField obj "content").isSome = true ∨
      (lookupField obj "size").isSome = true ∨
      (lookupField obj "sha256").isSome = true) :
    expandFileDescriptor key obj =
      .error ("file " ++ goQuoted key ++
        ": symlink cannot be combined with content/size/sha256") ∧
    ∀ (reOk : String → Bool) (fuel : Nat) (sv cv : String),
      ExpandDSL reOk (fuel + 2)
        (.obj [("file.txt", .obj [("symlink", .str sv), ("content", .str cv)])]) =
      .error "file \"file.txt\": symlink cannot be combined with content/size/sha256" := by
  constructor
  · unfold expandFileDescriptor
    rw [if_pos ⟨hsym, hany⟩]
  · intro reOk fuel sv cv
    rfl

theorem c6_witness :
    expandFileDescriptor "f" [("symlink", .str "t"), ("content", .str "c")] =
      .error ("file " ++ goQuoted "f" ++
        ": symlink cannot be combined with content/size/sha256") ∧
    ∀ (reOk : String → Bool) (fuel : Nat) (sv cv : String),
      ExpandDSL reOk (fuel + 2)
        (.obj [("file.txt", .obj [("symlink", .str sv), ("content", .str cv)])]) =
      .error "file \"file.txt\": symlink cannot be combined with content/size/sha256" :=
  c6_symlink_conflict "f" [("symlink", .str "t"), ("content", .str "c")] rfl (Or.inl rfl)

/-! ## C7: mutually-referential symlinks terminate the walk with an error -/

/-- Root directory holding the mutual symlink pair a -> b, b -> a. -/
def c7FS : FS := [(["a"], .symlink "b"), (["b"], .symlink "a")]

/-- The schema of the repository's own cycle test: both `a/` and `b/`
expected as directories. -/
def c7Schema : Smap :=
  [("type", .str "object"),
   ("properties", .obj
     [("a/", .obj [("type", .str "object"), ("required", .arr [])]),
      ("b/", .obj [("type", .str "object"), ("required", .arr [])])]),
   ("required", .arr [.str "a/", .str "b/"])]

set_option maxRecDepth 40000 in
/-- C7.  Walking the mutual symlink pair under a schema expecting both as
directories terminates for every fuel bound with the resolver's
too-many-links error (the cycle-identifying error the repository's own
test accepts), independent of the regex engine, hash function and walk
options: the walk neither loops nor overflows. -/
theorem c7_symlink_cycle_walk_terminates
    (recog : String → String → Bool) (sha : String → String)
    (opts : Options) (fuel : Nat) :
    WalkWithSchema recog sha c7FS opts (some c7Schema) (fuel + 1) =
      .error "resolve symlink /a: EvalSymlinks: too many links" := by
  rfl

/-! ## C9: the visited set is restored on return from every subtree -/

theorem handleSchemaSymlinkF_visited
    {walk : List String → Option Smap → Visited → Except String JValue × Visited}
    (hwalk : ∀ d s v, (walk d s v).2 = v)
    (recog : String → String → Bool) (sha : String → String) (fs : FS) (opts : Options)
    (name : String) (full realDir : List String) (props pats : Smap) (v : Visited) :
    (handleSchemaSymlinkF walk recog sha fs opts name full realDir props pats v).2 = v := by
  unfold handleSchemaSymlinkF
  split
  · -- schema expects a directory
    rename_i childSchema hcs
    split
    · rfl
    · split <;>
        first
        | rfl
        | (split <;>
            (rename_i heq
             have h := hwalk full childSchema v
             rw [heq] at h
             exact h))
  · -- fall through to symlink/file expectations
    split
    · split <;> rfl
    · split
      · split
        · rfl
        · split <;> first | rfl | (split <;> rfl)
      · rfl

theorem handleFollowSymlinkF_visited
    {walk : List String → Option Smap → Visited → Except String JValue × Visited}
    (hwalk : ∀ d s v, (walk d s v).2 = v)
    (sha : String → String) (fs : FS) (opts : Options)
    (name : String) (full : List String) (v : Visited) :
    (handleFollowSymlinkF walk sha fs opts name full v).2 = v := by
  unfold handleFollowSymlinkF
  split
  · rfl
  · split <;>
      first
      | rfl
      | (split <;> rfl)
      | (split <;>
          (rename_i heq
           have h := hwalk full none v
           rw [heq] at h
           exact h))

theorem walkEntryStep_visited
    {walk : List String → Option Smap → Visited → Except String JValue × Visited}
    (hwalk : ∀ d s v, (walk d s v).2 = v)
    (recog : String → String → Bool) (sha : String → String) (fs : FS) (opts : Options)
    (hasSchema : Bool) (props pats : Smap) (dir realDir : List String)
    (name : String) (v : Visited) :
    (walkEntryStep walk recog sha fs opts hasSchema props pats dir realDir name v).2 = v := by
  have hg2 : (if hasSchema then
      handleSchemaSymlinkF walk recog sha fs opts name (dir ++ [name]) realDir props pats v
    else (.ok none, v)).2 = v := by
    split
    · exact handleSchemaSymlinkF_visited hwalk recog sha fs opts name _ realDir props pats v
    · rfl
  unfold walkEntryStep
  split
  · -- symlink entry
    split
    · rename_i e v' heq
      rw [heq] at hg2
      exact hg2
    · rename_i kv v' heq
      rw [heq] at hg2
      exact hg2
    · rename_i v' heq
      rw [heq] at hg2
      split
      · split <;>
          (rename_i heq2
           have h := handleFollowSymlinkF_visited hwalk sha fs opts name (dir ++ [name]) v'
           rw [heq2] at h
           exact h.trans hg2)
      · split <;> exact hg2
  · -- directory entry
    split <;>
      (rename_i heq
       have h := hwalk (dir ++ [name])
         (match schemaExpectsDir recog name props pats with
          | some cs => cs
          | none => none) v
       rw [heq] at h
       exact h)
  · split <;> rfl
  · rfl

theorem walkEntriesF_visited
    {walk : List String → Option Smap → Visited → Except String JValue × Visited}
    (hwalk : ∀ d s v, (walk d s v).2 = v)
    (recog : String → String → Bool) (sha : String → String) (fs : FS) (opts : Options)
    (hasSchema : Bool) (props pats : Smap) (dir realDir : List String) :
    ∀ (names : List String) (v : Visited),
      (walkEntriesF walk recog sha fs opts hasSchema props pats dir realDir names v).2 = v := by
  intro names
  induction names with
  | nil => intro v; rfl
  | cons name rest ih =>
    intro v
    unfold walkEntriesF
    split
    · rename_i heq
      have h := walkEntryStep_visited hwalk recog sha fs opts hasSchema props pats dir realDir
        name v
      rw [heq] at h
      exact h
    · rename_i kvs v' heq
      have hv : (walkEntryStep walk recog sha fs opts hasSchema props pats dir realDir
          name v).2 = v :=
        walkEntryStep_visited hwalk recog sha fs opts hasSchema props pats dir realDir name v
      rw [heq] at hv
      split <;>
        (rename_i heq2
         have h2 := ih v'
         rw [heq2] at h2
         exact h2.trans hv)

theorem walkDirInner_visited
    (recog : String → String → Bool) (sha : String → String) (fs : FS) (opts : Options) :
    ∀ (fuel : Nat) (dir : List String) (schema : Option Smap) (visited : Visited),
      (walkDirInner recog sha fs opts fuel dir schema visited).2 = visited := by
  intro fuel
  induction fuel with
  | zero => intro dir schema visited; rfl
  | succ fuel ih =>
    intro dir schema visited
    unfold walkDirInner
    split
    · rfl
    · rename_i realDir heq0
      split
      · rfl
      · split
        · split <;>
            (rename_i o v2 heq
             have h := walkEntriesF_visited ih recog sha fs opts schema.isSome
               (schemaKeyOf schema "properties") (schemaKeyOf schema "patternProperties")
               dir realDir (readDirNames fs realDir) (realDir :: visited)
             rw [heq] at h
             have hv : v2 = realDir :: visited := h
             rw [hv]
             exact List.erase_cons_head realDir visited)
        all_goals exact List.erase_cons_head realDir visited

/-- Root with two sibling symlinks resolving to the same real directory. -/
def c9FS : FS := [(["target"], .dir), (["target", "f.txt"], .file "x"),
  (["l1"], .symlink "target"), (["l2"], .symlink "target")]

def c9Schema : Smap :=
  [("type", .str "object"),
   ("properties", .obj
     [("l1/", .obj [("type", .str "object"), ("required", .arr [])]),
      ("l2/", .obj [("type", .str "object"), ("required", .arr [])])]),
   ("required", .arr [.str "l1/", .str "l2/"])]

def c9Options : Options :=
  { includeSize := false, includeSHA256 := false, includeContent := false,
    maxContentBytes := DefaultMaxContentBytes, symlinkPolicy := .record }

/-- C9.  Every walkDirInner call leaves the visited set exactly as it
found it (the Go `defer delete` restores the shared map), on success and
on error alike; consequently one real directory reached through two
non-nested sibling symlinks is walked twice successfully instead of being
misreported as a cycle. -/
theorem c9_visited_invariant_and_sibling_rewalk :
    (∀ (recog : String → String → Bool) (sha : String → String) (fs : FS) (opts : Options)
       (fuel : Nat) (dir : List String) (schema : Option Smap) (visited : Visited),
       (walkDirInner recog sha fs opts fuel dir schema visited).2 = visited) ∧
    (∀ (recog : String → String → Bool) (sha : String → String) (fuel : Nat),
       WalkWithSchema recog sha c9FS c9Options (some c9Schema) (fuel + 2) =
         .ok (.obj [("l1/", .obj [("f.txt", .bool true)]),
           ("l2/", .obj [("f.txt", .bool true)]),
           ("target/", .obj [("f.txt", .bool true)])])) :=
  ⟨fun recog sha fs opts => walkDirInner_visited recog sha fs opts,
   fun _ _ _ => rfl⟩

/-! ## C10: which schema shapes enable the attribute flags -/

/-- Record update adding (disjunctively) to the three include flags and
touching nothing else. -/
def setFlags (o : Options) (s h c : Bool) : Options :=
  { o with includeSize := o.includeSize || s,
           includeSHA256 := o.includeSHA256 || h,
           includeContent := o.includeContent || c }

/-- Does a `properties` object contain the key `k`? -/
def propsHasKey (k : String) : List (String × JValue) → Bool
  | [] => false
  | (pk, _) :: rest => if pk = k then true else propsHasKey k rest

/-- Is `r` reached through some object-valued child of a `properties`
object (mirrors the second loop of the `properties` branch of
instance `scanMap`)? -/
def childrenReach (r : List (String × JValue) → Bool) :
    List (String × JValue) → Bool
  | [] => false
  | (_, child) :: rest =>
    (match child with
     | .obj m => r m
     | _ => false) || childrenReach r rest

/-- One level of the traversal of instance `scanMap`, as a reachability
predicate for the flag keyed by `k`: a `properties` key with an object
value contributes its own keys and its object children; every other key
contributes its value when that value is an object; array values are
never entered. -/
def stepReach (k : String) (r : List (String × JValue) → Bool) :
    List (String × JValue) → Bool
  | [] => false
  | (key, value) :: rest =>
    (if key = "properties" then
       match value with
       | .obj props => propsHasKey k props || childrenReach r props
       | _ => false
     else
       match value with
       | .obj m => r m
       | _ => false) || stepReach k r rest

/-- The key `k` occurs in some `properties` object reachable from the
fields through nested object values only, the exact traversal of instance
`scanMap`. -/
def scanReach (k : String) : Nat → List (String × JValue) → Bool
  | 0, _ => false
  | fuel + 1, fields => stepReach k (scanReach k fuel) fields

/-- Modelled from the claim words: some `properties` mapping anywhere in
the schema tree, arrays included, contains the key `k`. -/
def propertiesKeyInTree (k : String) : Nat → JValue → Bool
  | 0, _ => false
  | fuel + 1, v =>
    match v with
    | .obj fields =>
      fields.any fun kv =>
        (decide (kv.1 = "properties") &&
          (match kv.2 with
           | .obj p => propsHasKey k p
           | _ => false)) || propertiesKeyInTree k fuel kv.2
    | .arr items => items.any fun it => propertiesKeyInTree k fuel it
    | _ => false

/-- A schema whose only `properties` object sits under the `allOf` array:
`scanMap` never descends into arrays, so the pre-scan misses it. -/
def c10Schema : Smap :=
  [("allOf", .arr [.obj [("properties", .obj [("size", .obj [])])]])]

theorem setFlags_setFlags (o : Options) (s1 h1 c1 s2 h2 c2 : Bool) :
    setFlags (setFlags o s1 h1 c1) s2 h2 c2 =
      setFlags o (s1 || s2) (h1 || h2) (c1 || c2) := by
  simp [setFlags, Bool.or_assoc]

theorem setFlags_false (o : Options) : setFlags o false false false = o := by
  simp [setFlags]

theorem flagsFromPropKeys_spec (props : List (String × JValue)) :
    ∀ o : Options, flagsFromPropKeys props o =
      setFlags o (propsHasKey "size" props) (propsHasKey "sha256" props)
        (propsHasKey "content" props) := by
  induction props with
  | nil =>
    intro o
    simp only [flagsFromPropKeys, propsHasKey]
    exact (setFlags_false o).symm
  | cons kv rest ih =>
    intro o
    obtain ⟨pk, pv⟩ := kv
    rw [flagsFromPropKeys]
    rw [ih]
    by_cases h1 : pk = "size"
    · subst h1
      simp +decide [propsHasKey, setFlags, Bool.or_assoc]
    · by_cases h2 : pk = "sha256"
      · subst h2
        simp +decide [propsHasKey, setFlags, Bool.or_assoc]
      · by_cases h3 : pk = "content"
        · subst h3
          simp +decide [propsHasKey, setFlags, Bool.or_assoc]
        · simp [propsHasKey, h1, h2, h3]

theorem scanChildren_spec
    (deeper : List (String × JValue) → Options → Options)
    (rs rh rc : List (String × JValue) → Bool)
    (hd : ∀ m o, deeper m o = setFlags o (rs m) (rh m) (rc m))
    (props : List (String × JValue)) :
    ∀ o : Options, scanChildren deeper props o =
      setFlags o (childrenReach rs props) (childrenReach rh props)
        (childrenReach rc props) := by
  induction props with
  | nil =>
    intro o
    simp only [scanChildren, childrenReach]
    exact (setFlags_false o).symm
  | cons kv rest ih =>
    intro o
    obtain ⟨pk, child⟩ := kv
    cases child <;>
      simp only [scanChildren, childrenReach, hd, ih, setFlags_setFlags, Bool.false_or]

theorem scanStep_spec
    (deeper : List (String × JValue) → Options → Options)
    (rs rh rc : List (String × JValue) → Bool)
    (hd : ∀ m o, deeper m o = setFlags o (rs m) (rh m) (rc m))
    (fields : List (String × JValue)) :
    ∀ o : Options, scanStep deeper fields o =
      setFlags o (stepReach "size" rs fields) (stepReach "sha256" rh fields)
        (stepReach "content" rc fields) := by
  induction fields with
  | nil =>
    intro o
    simp only [scanStep, stepReach]
    exact (setFlags_false o).symm
  | cons kv rest ih =>
    intro o
    obtain ⟨key, value⟩ := kv
    by_cases hk : key = "properties"
    · subst hk
      cases value <;>
        simp +decide [scanStep, stepReach, flagsFromPropKeys_spec,
          scanChildren_spec deeper rs rh rc hd, ih, setFlags_setFlags]
    · cases value <;>
        simp [scanStep, stepReach, hk, hd, ih, setFlags_setFlags]

theorem scanMap_spec :
    ∀ (fuel : Nat) (fields : List (String × JValue)) (o : Options),
      scanMap fuel fields o =
        setFlags o (scanReach "size" fuel fields) (scanReach "sha256" fuel fields)
          (scanReach "content" fuel fields) := by
  intro fuel
  induction fuel with
  | zero => intro fields o; rw [scanMap, scanReach, scanReach, scanReach, setFlags_false]
  | succ fuel ih =>
    intro fields o
    rw [scanMap, scanReach, scanReach, scanReach]
    exact scanStep_spec (scanMap fuel) (scanReach "size" fuel) (scanReach "sha256" fuel)
      (scanReach "content" fuel) (fun m o2 => ih m o2) fields o

/-- C10 counterexample.  A `properties` object under the `allOf` array
contains the key `size` — a `properties` mapping in the schema tree in the
claim words — yet ScanAttributes leaves IncludeSize disabled at every
fuel, because `scanMap` only descends into map values, never into array
elements. -/
theorem c10_counterexample :
    (ScanAttributes 5 c10Schema).includeSize = false ∧
    propertiesKeyInTree "size" 5 (.obj c10Schema) = true :=
  ⟨rfl, rfl⟩

/-- C10 amended.  ScanAttributes always fixes MaxContentBytes at 2^20 and
the symlink policy at record, and enables IncludeSize, IncludeSHA256 and
IncludeContent exactly when a `properties` object reachable from the root
through nested map values only (array elements, such as `allOf` members,
are never entered) contains the key `size`, `sha256` or `content`
respectively. -/
theorem c10_scan_attributes_flags (fuel : Nat) (schema : Smap) :
    (ScanAttributes fuel schema).maxContentBytes = 1048576 ∧
    (ScanAttributes fuel schema).symlinkPolicy = .record ∧
    (ScanAttributes fuel schema).includeSize = scanReach "size" fuel schema ∧
    (ScanAttributes fuel schema).includeSHA256 = scanReach "sha256" fuel schema ∧
    (ScanAttributes fuel schema).includeContent = scanReach "content" fuel schema := by
  rw [ScanAttributes, scanMap_spec]
  simp [setFlags, DefaultMaxContentBytes]

/-- The amended C10 theorem evaluated at the counterexample schema and at
a schema whose root-level `properties` holds all three keys. -/
theorem c10_witness :
    (ScanAttributes 5 c10Schema).maxContentBytes = 1048576 ∧
    (ScanAttributes 5 c10Schema).symlinkPolicy = .record ∧
    (ScanAttributes 5 c10Schema).includeSize = scanReach "size" 5 c10Schema ∧
    (ScanAttributes 5 c10Schema).includeSHA256 = scanReach "sha256" 5 c10Schema ∧
    (ScanAttributes 5 c10Schema).includeContent = scanReach "content" 5 c10Schema :=
  c10_scan_attributes_flags 5 c10Schema

end DirSchema
